import Mathlib

/-
Verification of the api-scraper pagination engine and run controller
(src/main.rs) against its specification.

The development shallowly embeds the program:

* 32-bit signed integers are modelled as `ℤ` together with the wrapping
  cast `wrap32` (Rust release-profile `as i32` semantics).
* The `f32` computation `(total_count as f32 / page_size as f32).ceil() as i32`
  is modelled exactly: `RN` is IEEE-754 binary32 round-to-nearest-even on
  `ℚ` (valid on the normal range, which contains every value this program
  can feed it: 32-bit integers and their quotients), `divF32` follows the
  IEEE division rules including division by zero, `ceilF32` is the exact
  ceiling, and `i32cast` is Rust's saturating float-to-int cast.
* JSON documents are an inductive `Json`; serde_json's number payload is
  `JNum` (`as_i64` succeeds exactly on integers in the i64 range), and
  serde_json's `Value::pointer` (RFC 6901) is `Json.pointer`.
* The HTTP collaborator (`reqwest` transport plus JSON decoding inside
  `fetch_page`) is an oracle `fetch : ℤ → Except String Json` indexed by the
  page number; the query-parameter construction of `fetch_page` is modelled
  separately by `fetch_page_params`.  File writing in `save_page_to_file`
  (out of scope per the spec) always succeeds; its fallible data-path
  extraction is `extract_data`.  Console output and sleeping are untimed
  observability effects and are not modelled.
-/

/-! ### 32-bit integer semantics -/

/-- Wrapping cast to `i32`: interpret an integer modulo `2^32` in
`[-2^31, 2^31)`.  Used for Rust's `as i32` on `i64` values and for
release-mode `i32` arithmetic overflow. -/
def wrap32 (n : ℤ) : ℤ := (n + 2 ^ 31) % 2 ^ 32 - 2 ^ 31

/-! ### Exact model of the f32 computation in `Scraper::run`

`let total_pages = (total_count as f32 / page_size as f32).ceil() as i32;`
-/

/-- Floor of the base-2 logarithm of a positive natural number
(fuel-driven so that it reduces by `rfl`/`decide`); correct for `n < 2^fuel`. -/
def log2p : ℕ → ℕ → ℕ
  | 0, _ => 0
  | fuel + 1, n => if 2 ≤ n then log2p fuel (n / 2) + 1 else 0

/-- Ceiling of the base-2 logarithm of a positive natural number
(fuel-driven); correct for `n ≤ 2^fuel`. -/
def clog2p : ℕ → ℕ → ℕ
  | 0, _ => 0
  | fuel + 1, m => if 2 ≤ m then clog2p fuel ((m + 1) / 2) + 1 else 0

/-- `⌊log₂ q⌋` for a positive rational `q`, correct for
`2^(-63) ≤ q < 2^63`, which covers every value the scraper's `f32`
computation handles. -/
def floorLog2 (q : ℚ) : ℤ :=
  if 1 ≤ q then (log2p 64 ⌊q⌋.toNat : ℤ) else -(clog2p 64 ⌈q⁻¹⌉.toNat : ℤ)

/-- Round a rational to the nearest integer, ties to even
(IEEE-754 default rounding applied to a scaled significand). -/
def rndInt (m : ℚ) : ℤ :=
  if m - ⌊m⌋ < 1 / 2 then ⌊m⌋
  else if (1 : ℚ) / 2 < m - ⌊m⌋ then ⌊m⌋ + 1
  else if 2 ∣ ⌊m⌋ then ⌊m⌋ else ⌊m⌋ + 1

/-- Round a positive rational to 24 binary digits of precision
(binary32 significand), round-to-nearest, ties-to-even. -/
def rnd24 (q : ℚ) : ℚ :=
  (rndInt (q * (2 : ℚ) ^ (23 - floorLog2 q)) : ℚ) * (2 : ℚ) ^ (floorLog2 q - 23)

/-- IEEE-754 binary32 rounding of a real (rational) value, valid on the
normal range `2^(-126) ≤ |q| < 2^128` (zero included).  All values produced
by the scraper — 32-bit integers and quotients of their roundings — lie in
this range. -/
def RN (q : ℚ) : ℚ := if q = 0 then 0 else if 0 < q then rnd24 q else -rnd24 (-q)

/-- A binary32 value as observed by this program: NaN, the two infinities,
or a finite value (the two IEEE zeros are conflated; the sign of zero is
unobservable through `ceil`/`as i32`). -/
inductive F32 where
  | nan : F32
  | inf : F32
  | ninf : F32
  | fin : ℚ → F32

/-- Rust `as f32` applied to an `i32` value (exact IEEE rounding; every
`i32` magnitude is far below the f32 overflow threshold). -/
def ofI32 (n : ℤ) : F32 := .fin (RN n)

/-- IEEE-754 binary32 division, including the division-by-zero and
infinity rules. -/
def divF32 : F32 → F32 → F32
  | .nan, _ => .nan
  | _, .nan => .nan
  | .fin x, .fin y =>
    if y = 0 then (if x = 0 then .nan else if 0 < x then .inf else .ninf)
    else .fin (RN (x / y))
  | .fin _, .inf => .fin 0
  | .fin _, .ninf => .fin 0
  | .inf, .fin y => if 0 ≤ y then .inf else .ninf
  | .ninf, .fin y => if 0 ≤ y then .ninf else .inf
  | .inf, .inf => .nan
  | .inf, .ninf => .nan
  | .ninf, .inf => .nan
  | .ninf, .ninf => .nan

/-- `f32::ceil`: exact on every representable value (the ceiling of a
representable binary32 value is itself representable). -/
def ceilF32 : F32 → F32
  | .nan => .nan
  | .inf => .inf
  | .ninf => .ninf
  | .fin q => .fin (⌈q⌉ : ℚ)

/-- Truncation toward zero. -/
def truncQ (q : ℚ) : ℤ := if 0 ≤ q then ⌊q⌋ else ⌈q⌉

/-- Rust `as i32` on an `f32`: saturating cast — NaN becomes 0, values
beyond the `i32` range clamp to `i32::MIN`/`i32::MAX`, finite values
truncate toward zero. -/
def i32cast : F32 → ℤ
  | .nan => 0
  | .inf => 2 ^ 31 - 1
  | .ninf => -2 ^ 31
  | .fin q => max (-2 ^ 31) (min (2 ^ 31 - 1) (truncQ q))

/-- The Plan step of `Scraper::run` (src/main.rs:138-139):
`(total_count as f32 / page_size as f32).ceil() as i32`. -/
def totalPages (total_count page_size : ℤ) : ℤ :=
  i32cast (ceilF32 (divF32 (ofI32 total_count) (ofI32 page_size)))

/-! ### JSON documents and serde_json pointer resolution -/

/-- A serde_json number.  `int n` covers the `PosInt`/`NegInt`
representations (integers in `[-2^63, 2^64)` as parsed by serde_json);
`float` covers the `Float` representation, whose payload is irrelevant here
because `as_i64` rejects every float. -/
inductive JNum where
  | int : ℤ → JNum
  | float : JNum

/-- A decoded JSON document (`serde_json::Value`).  Objects are association
lists with the unique-key invariant of serde_json's map; lookup takes the
first match. -/
inductive Json where
  | null : Json
  | bool : Bool → Json
  | num : JNum → Json
  | str : String → Json
  | arr : List Json → Json
  | obj : List (String × Json) → Json

/-- `serde_json::Value::as_i64`: succeeds exactly on integer-representation
numbers that fit in a signed 64-bit integer. -/
def as_i64 : Json → Option ℤ
  | .num (.int n) => if -2 ^ 63 ≤ n ∧ n < 2 ^ 63 then some n else none
  | _ => none

/-- Rust `str::split(c)` on a character list. -/
def splitChar (c : Char) : List Char → List (List Char)
  | [] => [[]]
  | a :: rest =>
    match splitChar c rest with
    | [] => [[]]
    | t :: ts => if a = c then [] :: t :: ts else (a :: t) :: ts

/-- Rust `str::replace` specialised to a two-character pattern and a
one-character replacement (all serde_json pointer unescaping has this
shape): leftmost-first, non-overlapping. -/
def replace2 (p1 p2 r : Char) : List Char → List Char
  | [] => []
  | [a] => [a]
  | a :: b :: rest =>
    if a = p1 ∧ b = p2 then r :: replace2 p1 p2 r rest
    else a :: replace2 p1 p2 r (b :: rest)

/-- serde_json pointer-token unescaping: `~1 → /` then `~0 → ~`. -/
def unescapeToken (t : List Char) : List Char :=
  replace2 '~' '0' '~' (replace2 '~' '1' '/' t)

/-- Decimal value of a digit string. -/
def digitsVal (l : List Char) : ℕ :=
  l.foldl (fun acc c => acc * 10 + (c.toNat - ('0').toNat)) 0

/-- serde_json's `parse_index`: token used to index into an array.  Leading
`+` and non-trivial leading zeros are rejected, otherwise the token must be
all ASCII digits.  (A value beyond `usize::MAX` fails to parse in Rust; here
it parses to a huge `ℕ`, which is indistinguishable through indexing into
any finite array.) -/
def parseIndex (t : List Char) : Option ℕ :=
  match t with
  | [] => none
  | c :: rest =>
    if c = '+' then none
    else if c = '0' ∧ rest ≠ [] then none
    else if (c :: rest).all Char.isDigit then some (digitsVal (c :: rest)) else none

/-- Object-field lookup (serde_json map `get`; keys are unique). -/
def lookupL (t : List Char) : List (String × Json) → Option Json
  | [] => none
  | (k, v) :: rest => if k.data = t then some v else lookupL t rest

/-- One step of serde_json pointer traversal: objects are indexed by field
name, arrays by `parse_index`, everything else fails. -/
def jstep (j : Json) (tok : List Char) : Option Json :=
  match j with
  | .obj fields => lookupL tok fields
  | .arr xs => (parseIndex tok).bind fun i => xs.get? i
  | _ => none

/-- `serde_json::Value::pointer` (RFC 6901): empty pointer returns the
whole document, a pointer not starting with `/` resolves to nothing, and
otherwise the `/`-separated tokens are unescaped and traversed in order. -/
def Json.pointer (ptr : String) (v : Json) : Option Json :=
  if ptr = "" then some v
  else
    match splitChar '/' ptr.data with
    | [] => none
    | first :: toks =>
      if first = [] then
        toks.foldl (fun acc t => acc.bind fun j => jstep j (unescapeToken t)) (some v)
      else none

/-! ### The Scraper's extraction functions -/

/-- `Scraper::get_total_count` (src/main.rs:198-204):
`response.pointer(&format!("/{}", total_count_path)).and_then(|v| v.as_i64()).map(|v| v as i32).ok_or_else(...)`. -/
def get_total_count (total_count_path : String) (response : Json) : Except String ℤ :=
  match (Json.pointer ("/" ++ total_count_path) response).bind as_i64 with
  | some v => .ok (wrap32 v)
  | none => .error "Could not find total count in response"

/-- The data-path extraction inside `Scraper::save_page_to_file`
(src/main.rs:211-213): `response.pointer(&format!("/{}", data_path))`. -/
def extract_data (data_path : String) (response : Json) : Option Json :=
  Json.pointer ("/" ++ data_path) response

/-! ### Pagination configuration and request construction -/

/-- The pagination variants (src/main.rs:76-80). -/
inductive PaginationType where
  | Offset : PaginationType
  | Cursor : PaginationType
  | Page : PaginationType
deriving DecidableEq

/-- ASCII lowercasing (Rust `str::to_lowercase`; the two agree on ASCII
input, which is the intended domain of the `--pagination-type` flag). -/
def toLowerStr (s : String) : String := ⟨s.data.map Char.toLower⟩

/-- The pagination-type selection in `Scraper::new` (src/main.rs:102-106):
`match args.pagination_type.to_lowercase().as_str() { "offset" => Offset, "cursor" => Cursor, _ => Page }`.
Total — no input is rejected. -/
def parsePaginationType (s : String) : PaginationType :=
  if toLowerStr s = "offset" then .Offset
  else if toLowerStr s = "cursor" then .Cursor
  else .Page

/-- The query parameters built by `Scraper::fetch_page` (src/main.rs:171-192)
for one page.  The code formats each integer with `to_string` (injective);
the model keeps the `i32` values themselves.  `i32` arithmetic wraps
(release profile). -/
def fetch_page_params (pt : PaginationType) (page_size page : ℤ) : List (String × ℤ) :=
  match pt with
  | .Offset => [("offset", wrap32 (wrap32 (page - 1) * page_size)), ("limit", page_size)]
  | .Cursor => [("cursor", page), ("limit", page_size)]
  | .Page => [("page", page), ("pageSize", page_size)]

/-! ### The run controller (`Scraper::run`) -/

/-- The configuration fields of `Scraper` that `run` reads (base URL,
headers and rate limit only feed the abstracted HTTP collaborator and the
untimed sleep). -/
structure RunConfig where
  pageSize : ℤ
  dataPath : String
  totalCountPath : String

/-- Observable outcome of one run: the trace of `fetch_page` invocations
(in order, the probe first), the files written (`page_<N>.json` keyed by
page index, holding the extracted data), and whether `run` returned
`Ok(())`. -/
structure RunResult where
  fetches : List ℤ
  outputs : List (ℤ × Json)
  ok : Bool

/-- The pages `1..=total_pages` iterated by the `for` loop (empty when
`total_pages ≤ 0`). -/
def pageRange (tp : ℤ) : List ℤ := (List.range tp.toNat).map fun i => (i : ℤ) + 1

/-- The `for page in 1..=total_pages` loop body of `Scraper::run`
(src/main.rs:144-156): fetch the page; on fetch error log and continue; on
success run `save_page_to_file`, whose failure (missing data path) is
propagated with `?`, aborting the run.  Returns (fetch trace, outputs,
completed-normally flag). -/
def runLoop (fetch : ℤ → Except String Json) (data_path : String) :
    List ℤ → List ℤ × List (ℤ × Json) × Bool
  | [] => ([], [], true)
  | p :: rest =>
    match fetch p with
    | .ok resp =>
      match extract_data data_path resp with
      | some d =>
        let r := runLoop fetch data_path rest
        (p :: r.1, (p, d) :: r.2.1, r.2.2)
      | none => ([p], [], false)
    | .error _ =>
      let r := runLoop fetch data_path rest
      (p :: r.1, r.2.1, r.2.2)

/-- `Scraper::run` (src/main.rs:131-160).  Probe page 1, extract the total
count, plan `total_pages`, then iterate.  A probe failure aborts before the
loop.  Directory creation is out of scope (spec §1). -/
def Scraper.run (fetch : ℤ → Except String Json) (cfg : RunConfig) : RunResult :=
  match fetch 1 with
  | .error _ => ⟨[1], [], false⟩
  | .ok initial_response =>
    match get_total_count cfg.totalCountPath initial_response with
    | .error _ => ⟨[1], [], false⟩
    | .ok total_count =>
      let r := runLoop fetch cfg.dataPath (pageRange (totalPages total_count cfg.pageSize))
      ⟨1 :: r.1, r.2.1, r.2.2⟩

/-! ### Concrete fixtures for the claim witnesses and counterexamples -/

/-- A run configuration with page size 1 and the default paths. -/
def cfgStd : RunConfig := ⟨1, "data", "totalCount"⟩

/-- A run configuration with a negative page size. -/
def cfgNeg : RunConfig := ⟨-3, "data", "totalCount"⟩

/-- Response with total count 1 and an (empty) data array. -/
def docT1 : Json := .obj [("totalCount", .num (.int 1)), ("data", .arr [])]

/-- Response with total count 3 and an (empty) data array. -/
def docT3 : Json := .obj [("totalCount", .num (.int 3)), ("data", .arr [])]

/-- Response with total count 7 and an (empty) data array. -/
def docT7 : Json := .obj [("totalCount", .num (.int 7)), ("data", .arr [])]

/-- Response with total count 2 and no data field at all. -/
def docND : Json := .obj [("totalCount", .num (.int 2))]

/-- Response with total count 0. -/
def docT0 : Json := .obj [("totalCount", .num (.int 0)), ("data", .arr [])]

/-- Response whose data lives at the nested location a.b. -/
def docNested : Json := .obj [("a", .obj [("b", .num (.int 5))])]

/-- Response whose total count is 2^63 (integer-typed, outside i64). -/
def docBig : Json := .obj [("totalCount", .num (.int (2 ^ 63)))]

/-- Response whose total count is 2^32 + 5 (a valid i64 beyond i32). -/
def docWrap : Json := .obj [("totalCount", .num (.int (2 ^ 32 + 5)))]

/-- Response with total count 5. -/
def docTC5 : Json := .obj [("totalCount", .num (.int 5))]

/-- HTTP oracle: every page returns `docT1`. -/
def fetchT1 : ℤ → Except String Json := fun _ => .ok docT1

/-- HTTP oracle: page 2 fails with a transport error, every other page
returns `docT3`. -/
def fetchSkip2 : ℤ → Except String Json :=
  fun p => if p = 2 then .error "connection reset" else .ok docT3

/-- HTTP oracle: every page returns the data-less `docND`. -/
def fetchND : ℤ → Except String Json := fun _ => .ok docND

/-- HTTP oracle: every page returns `docT0`. -/
def fetchT0 : ℤ → Except String Json := fun _ => .ok docT0

/-- HTTP oracle: every page returns `docT7`. -/
def fetchT7 : ℤ → Except String Json := fun _ => .ok docT7

/-- HTTP oracle: the transport always fails. -/
def fetchErr : ℤ → Except String Json := fun _ => .error "connection refused"

/-! ### Lemmas: wrapping cast -/

theorem wrap32_eq_self {n : ℤ} (h1 : -2 ^ 31 ≤ n) (h2 : n < 2 ^ 31) : wrap32 n = n := by
  unfold wrap32
  rw [Int.emod_eq_of_lt (by omega) (by omega)]
  omega

theorem wrap32_lb (n : ℤ) : -2 ^ 31 ≤ wrap32 n := by
  unfold wrap32
  have := Int.emod_nonneg (n + 2 ^ 31) (show (2:ℤ) ^ 32 ≠ 0 by norm_num)
  omega

theorem wrap32_ub (n : ℤ) : wrap32 n < 2 ^ 31 := by
  unfold wrap32
  have := Int.emod_lt_of_pos (n + 2 ^ 31) (show (0:ℤ) < 2 ^ 32 by norm_num)
  omega

/-! ### Lemmas: binary logarithms -/

theorem log2p_spec : ∀ (fuel n : ℕ), 1 ≤ n → n < 2 ^ fuel →
    2 ^ log2p fuel n ≤ n ∧ n < 2 ^ (log2p fuel n + 1)
  | 0, n, h1, h2 => by simp at h2; omega
  | fuel + 1, n, h1, h2 => by
    by_cases h : 2 ≤ n
    · have hn2 : n / 2 < 2 ^ fuel := by
        rw [Nat.div_lt_iff_lt_mul (by norm_num)]
        calc n < 2 ^ (fuel + 1) := h2
          _ = 2 ^ fuel * 2 := by ring
      have ih := log2p_spec fuel (n / 2) (by omega) hn2
      simp only [log2p, if_pos h]
      rw [pow_succ, pow_succ]
      rw [pow_succ] at ih
      omega
    · have hn : n = 1 := by omega
      subst hn
      norm_num [log2p]


theorem clog2p_spec : ∀ (fuel m : ℕ), 1 ≤ m → m ≤ 2 ^ fuel →
    m ≤ 2 ^ clog2p fuel m ∧ (clog2p fuel m = 0 ∨ 2 ^ (clog2p fuel m - 1) < m)
  | 0, m, h1, h2 => by
    simp only [pow_zero] at h2
    constructor
    · simpa [clog2p] using h2
    · left; rfl
  | fuel + 1, m, h1, h2 => by
    by_cases h : 2 ≤ m
    · have hm2 : (m + 1) / 2 ≤ 2 ^ fuel := by
        rw [pow_succ] at h2
        omega
      have ih := clog2p_spec fuel ((m + 1) / 2) (by omega) hm2
      simp only [clog2p, if_pos h]
      constructor
      · rw [pow_succ]
        have := ih.1
        omega
      · right
        simp only [Nat.add_sub_cancel]
        rcases ih.2 with h0 | hlt
        · rw [h0, pow_zero] at ih ⊢
          omega
        · rcases Nat.eq_zero_or_pos (clog2p fuel ((m + 1) / 2)) with hk | hk
          · rw [hk, pow_zero]
            rw [hk, pow_zero] at hlt
            omega
          · have h2K : 2 ^ clog2p fuel ((m + 1) / 2) =
                2 ^ (clog2p fuel ((m + 1) / 2) - 1) * 2 := by
              rw [← pow_succ]
              congr 1
              omega
            rw [h2K]
            omega
    · have hm : m = 1 := by omega
      subst hm
      norm_num [clog2p]

theorem floorLog2_spec {q : ℚ} (h0 : 0 < q) (hlo : (2 : ℚ) ^ (-63 : ℤ) ≤ q)
    (hhi : q < (2 : ℚ) ^ (63 : ℤ)) :
    (2 : ℚ) ^ floorLog2 q ≤ q ∧ q < (2 : ℚ) ^ (floorLog2 q + 1) := by
  by_cases h1 : 1 ≤ q
  · have hfl : 1 ≤ ⌊q⌋ := by
      rw [Int.le_floor]
      exact_mod_cast h1
    have hq63 : ⌊q⌋ < 2 ^ 63 := by
      have hle : (⌊q⌋ : ℚ) ≤ q := Int.floor_le q
      have h2 : (⌊q⌋ : ℚ) < (2 : ℚ) ^ (63 : ℤ) := lt_of_le_of_lt hle hhi
      have h3 : ((2 : ℤ) ^ 63 : ℚ) = (2 : ℚ) ^ (63 : ℤ) := by norm_num
      rw [← h3] at h2
      exact_mod_cast h2
    have hnq : ((⌊q⌋.toNat : ℕ) : ℚ) = (⌊q⌋ : ℚ) := by
      exact_mod_cast congrArg (fun z : ℤ => (z : ℚ)) (Int.toNat_of_nonneg (by omega))
    have hnpos : 1 ≤ ⌊q⌋.toNat := by omega
    have hnlt : ⌊q⌋.toNat < 2 ^ 64 := by
      have e1 : (2 : ℕ) ^ 64 = 18446744073709551616 := by norm_num
      have e2 : (2 : ℤ) ^ 63 = 9223372036854775808 := by norm_num
      omega
    obtain ⟨hl, hr⟩ := log2p_spec 64 ⌊q⌋.toNat hnpos hnlt
    rw [floorLog2, if_pos h1]
    constructor
    · have step1 : (2 : ℚ) ^ ((log2p 64 ⌊q⌋.toNat : ℕ) : ℤ) =
          ((2 ^ log2p 64 ⌊q⌋.toNat : ℕ) : ℚ) := by
        rw [zpow_natCast]
        push_cast
        ring
      rw [step1]
      calc ((2 ^ log2p 64 ⌊q⌋.toNat : ℕ) : ℚ) ≤ ((⌊q⌋.toNat : ℕ) : ℚ) := by
            exact_mod_cast hl
        _ = (⌊q⌋ : ℚ) := hnq
        _ ≤ q := Int.floor_le q
    · have step2 : (2 : ℚ) ^ (((log2p 64 ⌊q⌋.toNat : ℕ) : ℤ) + 1) =
          ((2 ^ (log2p 64 ⌊q⌋.toNat + 1) : ℕ) : ℚ) := by
        rw [zpow_add_one₀ (by norm_num : (2:ℚ) ≠ 0), zpow_natCast]
        push_cast
        rw [pow_succ]
      rw [step2]
      calc q < (⌊q⌋ : ℚ) + 1 := Int.lt_floor_add_one q
        _ = ((⌊q⌋.toNat : ℕ) : ℚ) + 1 := by rw [hnq]
        _ ≤ ((2 ^ (log2p 64 ⌊q⌋.toNat + 1) : ℕ) : ℚ) := by exact_mod_cast hr
  · push_neg at h1
    have hinv : 1 < q⁻¹ := (one_lt_inv₀ h0).mpr h1
    have hceil2 : 2 ≤ ⌈q⁻¹⌉ := by
      have hc : (1 : ℤ) < ⌈q⁻¹⌉ := by
        rw [Int.lt_ceil]
        exact_mod_cast hinv
      omega
    have hinvle : q⁻¹ ≤ (2 : ℚ) ^ (63 : ℤ) := by
      have step1 : q⁻¹ ≤ ((2 : ℚ) ^ (-63 : ℤ))⁻¹ := inv_anti₀ (by positivity) hlo
      rwa [← zpow_neg, neg_neg] at step1
    have hceille : ⌈q⁻¹⌉ ≤ 2 ^ 63 := by
      rw [Int.ceil_le]
      exact le_trans hinvle (by norm_num)
    have hmq : ((⌈q⁻¹⌉.toNat : ℕ) : ℚ) = (⌈q⁻¹⌉ : ℚ) := by
      exact_mod_cast congrArg (fun z : ℤ => (z : ℚ)) (Int.toNat_of_nonneg (by omega))
    have hm2 : 2 ≤ ⌈q⁻¹⌉.toNat := by omega
    have hmle : ⌈q⁻¹⌉.toNat ≤ 2 ^ 64 := by
      have e1 : (2 : ℕ) ^ 64 = 18446744073709551616 := by norm_num
      have e2 : (2 : ℤ) ^ 63 = 9223372036854775808 := by norm_num
      omega
    obtain ⟨hul, hmin⟩ := clog2p_spec 64 ⌈q⁻¹⌉.toNat (by omega) hmle
    have hknz : clog2p 64 ⌈q⁻¹⌉.toNat ≠ 0 := by
      intro hc
      rw [hc, pow_zero] at hul
      omega
    have hkpos : 1 ≤ clog2p 64 ⌈q⁻¹⌉.toNat := Nat.one_le_iff_ne_zero.mpr hknz
    have hpow : q⁻¹ ≤ (2 : ℚ) ^ ((clog2p 64 ⌈q⁻¹⌉.toNat : ℕ) : ℤ) := by
      have step1 : (2 : ℚ) ^ ((clog2p 64 ⌈q⁻¹⌉.toNat : ℕ) : ℤ) =
          ((2 ^ clog2p 64 ⌈q⁻¹⌉.toNat : ℕ) : ℚ) := by
        rw [zpow_natCast]
        push_cast
        ring
      rw [step1]
      calc q⁻¹ ≤ (⌈q⁻¹⌉ : ℚ) := Int.le_ceil _
        _ = ((⌈q⁻¹⌉.toNat : ℕ) : ℚ) := hmq.symm
        _ ≤ ((2 ^ clog2p 64 ⌈q⁻¹⌉.toNat : ℕ) : ℚ) := by exact_mod_cast hul
    rw [floorLog2, if_neg (not_le.mpr h1)]
    constructor
    · rw [zpow_neg]
      rw [inv_le_comm₀ (by positivity) h0]
      exact hpow
    · have hlt : 2 ^ (clog2p 64 ⌈q⁻¹⌉.toNat - 1) < ⌈q⁻¹⌉.toNat := hmin.resolve_left hknz
      have hql : ((2 ^ (clog2p 64 ⌈q⁻¹⌉.toNat - 1) : ℕ) : ℚ) < q⁻¹ := by
        have hml : ((⌈q⁻¹⌉.toNat : ℕ) : ℚ) - 1 < q⁻¹ := by
          have hc1 := Int.ceil_lt_add_one q⁻¹
          rw [← hmq] at hc1
          linarith
        have hstep : ((2 ^ (clog2p 64 ⌈q⁻¹⌉.toNat - 1) : ℕ) : ℚ) ≤
            ((⌈q⁻¹⌉.toNat : ℕ) : ℚ) - 1 := by
          have hs : (2 ^ (clog2p 64 ⌈q⁻¹⌉.toNat - 1) : ℕ) + 1 ≤ ⌈q⁻¹⌉.toNat := hlt
          have hc : ((2 ^ (clog2p 64 ⌈q⁻¹⌉.toNat - 1) + 1 : ℕ) : ℚ) ≤
              ((⌈q⁻¹⌉.toNat : ℕ) : ℚ) := by exact_mod_cast hs
          push_cast at hc ⊢
          linarith
        linarith
      have hexp : -(clog2p 64 ⌈q⁻¹⌉.toNat : ℤ) + 1 =
          -((clog2p 64 ⌈q⁻¹⌉.toNat - 1 : ℕ) : ℤ) := by omega
      rw [hexp, zpow_neg]
      rw [lt_inv_comm₀ h0 (by positivity)]
      have step3 : (2 : ℚ) ^ ((clog2p 64 ⌈q⁻¹⌉.toNat - 1 : ℕ) : ℤ) =
          ((2 ^ (clog2p 64 ⌈q⁻¹⌉.toNat - 1) : ℕ) : ℚ) := by
        rw [zpow_natCast]
        push_cast
        ring
      rw [step3]
      exact hql

theorem floorLog2_eq {q : ℚ} (h0 : 0 < q) (hlo : (2 : ℚ) ^ (-63 : ℤ) ≤ q)
    (hhi : q < (2 : ℚ) ^ (63 : ℤ)) {k : ℤ} (hk1 : (2 : ℚ) ^ k ≤ q)
    (hk2 : q < (2 : ℚ) ^ (k + 1)) : floorLog2 q = k := by
  obtain ⟨ha, hb⟩ := floorLog2_spec h0 hlo hhi
  rcases lt_trichotomy (floorLog2 q) k with h | h | h
  · exfalso
    have : (2 : ℚ) ^ (floorLog2 q + 1) ≤ (2 : ℚ) ^ k :=
      zpow_le_zpow_right₀ (by norm_num) (by omega)
    linarith
  · exact h
  · exfalso
    have : (2 : ℚ) ^ (k + 1) ≤ (2 : ℚ) ^ floorLog2 q :=
      zpow_le_zpow_right₀ (by norm_num) (by omega)
    linarith

/-! ### Lemmas: round to nearest, ties to even -/

theorem rndInt_ge_floor (m : ℚ) : ⌊m⌋ ≤ rndInt m := by
  unfold rndInt
  split_ifs <;> omega

theorem rndInt_le_ceil (m : ℚ) : rndInt m ≤ ⌈m⌉ := by
  have hfc : ⌊m⌋ ≤ ⌈m⌉ := Int.floor_le_ceil m
  have hcl : m ≤ (⌈m⌉ : ℚ) := Int.le_ceil m
  unfold rndInt
  split_ifs with h1 h2 h3
  · exact hfc
  · have hx : (⌊m⌋ : ℚ) < m := by linarith
    have hy : (⌊m⌋ : ℚ) < (⌈m⌉ : ℚ) := lt_of_lt_of_le hx hcl
    have : ⌊m⌋ < ⌈m⌉ := by exact_mod_cast hy
    omega
  · exact hfc
  · have hx : (⌊m⌋ : ℚ) < m := by linarith
    have hy : (⌊m⌋ : ℚ) < (⌈m⌉ : ℚ) := lt_of_lt_of_le hx hcl
    have : ⌊m⌋ < ⌈m⌉ := by exact_mod_cast hy
    omega

theorem rndInt_lower (m : ℚ) : m - 1 / 2 ≤ (rndInt m : ℚ) := by
  have hfl : (⌊m⌋ : ℚ) ≤ m := Int.floor_le m
  have hfg : m - 1 < (⌊m⌋ : ℚ) := Int.sub_one_lt_floor m
  unfold rndInt
  split_ifs with h1 h2 h3 <;> push_cast <;> linarith

theorem rndInt_upper (m : ℚ) : (rndInt m : ℚ) ≤ m + 1 / 2 := by
  have hfl : (⌊m⌋ : ℚ) ≤ m := Int.floor_le m
  unfold rndInt
  split_ifs with h1 h2 h3 <;> push_cast <;> linarith

theorem rndInt_intCast (z : ℤ) : rndInt (z : ℚ) = z := by
  unfold rndInt
  rw [Int.floor_intCast]
  rw [if_pos (by norm_num : (z : ℚ) - (z : ℚ) < 1 / 2)]

/-! ### Lemmas: 24-bit rounding -/

theorem rnd24_lower (q : ℚ) :
    q - (2 : ℚ) ^ (floorLog2 q - 24) ≤ rnd24 q := by
  have hm := rndInt_lower (q * (2 : ℚ) ^ (23 - floorLog2 q))
  have hp : (0 : ℚ) < (2 : ℚ) ^ (floorLog2 q - 23) := zpow_pos (by norm_num) _
  have hmul := mul_le_mul_of_nonneg_right hm (le_of_lt hp)
  have h1 : (2 : ℚ) ^ (23 - floorLog2 q) * (2 : ℚ) ^ (floorLog2 q - 23) = 1 := by
    rw [← zpow_add₀ (by norm_num : (2 : ℚ) ≠ 0)]
    norm_num
  have h2 : (2 : ℚ) ^ (floorLog2 q - 23) = (2 : ℚ) ^ (floorLog2 q - 24) * 2 := by
    rw [← zpow_add_one₀ (by norm_num : (2 : ℚ) ≠ 0)]
    congr 1
    ring
  unfold rnd24
  have key : q - (2 : ℚ) ^ (floorLog2 q - 24) =
      (q * (2 : ℚ) ^ (23 - floorLog2 q) - 1 / 2) * (2 : ℚ) ^ (floorLog2 q - 23) := by
    linear_combination (-q) * h1 + h2 / 2
  rw [key]
  exact hmul

theorem rnd24_upper (q : ℚ) :
    rnd24 q ≤ q + (2 : ℚ) ^ (floorLog2 q - 24) := by
  have hm := rndInt_upper (q * (2 : ℚ) ^ (23 - floorLog2 q))
  have hp : (0 : ℚ) < (2 : ℚ) ^ (floorLog2 q - 23) := zpow_pos (by norm_num) _
  have hmul := mul_le_mul_of_nonneg_right hm (le_of_lt hp)
  have h1 : (2 : ℚ) ^ (23 - floorLog2 q) * (2 : ℚ) ^ (floorLog2 q - 23) = 1 := by
    rw [← zpow_add₀ (by norm_num : (2 : ℚ) ≠ 0)]
    norm_num
  have h2 : (2 : ℚ) ^ (floorLog2 q - 23) = (2 : ℚ) ^ (floorLog2 q - 24) * 2 := by
    rw [← zpow_add_one₀ (by norm_num : (2 : ℚ) ≠ 0)]
    congr 1
    ring
  unfold rnd24
  have key : (q * (2 : ℚ) ^ (23 - floorLog2 q) + 1 / 2) * (2 : ℚ) ^ (floorLog2 q - 23) =
      q + (2 : ℚ) ^ (floorLog2 q - 24) := by
    linear_combination q * h1 + h2 / 2
  rw [← key]
  exact hmul

theorem rnd24_ge {q : ℚ} (h0 : 0 < q) (hlo : (2 : ℚ) ^ (-63 : ℤ) ≤ q)
    (hhi : q < (2 : ℚ) ^ (63 : ℤ)) : (2 : ℚ) ^ floorLog2 q ≤ rnd24 q := by
  obtain ⟨hq1, _⟩ := floorLog2_spec h0 hlo hhi
  have hp : (0 : ℚ) < (2 : ℚ) ^ (23 - floorLog2 q) := zpow_pos (by norm_num) _
  have hmlb : (2 : ℚ) ^ (23 : ℤ) ≤ q * (2 : ℚ) ^ (23 - floorLog2 q) := by
    have := mul_le_mul_of_nonneg_right hq1 (le_of_lt hp)
    rwa [← zpow_add₀ (by norm_num : (2 : ℚ) ≠ 0), show floorLog2 q + (23 - floorLog2 q) = 23 by
      ring] at this
  have hfloor : (2 : ℤ) ^ 23 ≤ ⌊q * (2 : ℚ) ^ (23 - floorLog2 q)⌋ := by
    rw [Int.le_floor]
    calc ((2 : ℤ) ^ 23 : ℚ) = (2 : ℚ) ^ (23 : ℤ) := by norm_num
      _ ≤ _ := hmlb
  have hrnd : (2 : ℤ) ^ 23 ≤ rndInt (q * (2 : ℚ) ^ (23 - floorLog2 q)) :=
    le_trans hfloor (rndInt_ge_floor _)
  have hrndq : (2 : ℚ) ^ (23 : ℤ) ≤ (rndInt (q * (2 : ℚ) ^ (23 - floorLog2 q)) : ℚ) := by
    calc (2 : ℚ) ^ (23 : ℤ) = ((2 : ℤ) ^ 23 : ℚ) := by norm_num
      _ ≤ _ := by exact_mod_cast hrnd
  have hp2 : (0 : ℚ) < (2 : ℚ) ^ (floorLog2 q - 23) := zpow_pos (by norm_num) _
  have := mul_le_mul_of_nonneg_right hrndq (le_of_lt hp2)
  rwa [← zpow_add₀ (by norm_num : (2 : ℚ) ≠ 0), show (23 : ℤ) + (floorLog2 q - 23) = floorLog2 q
    by ring] at this

theorem rnd24_le_two {q : ℚ} (h0 : 0 < q) (hlo : (2 : ℚ) ^ (-63 : ℤ) ≤ q)
    (hhi : q < (2 : ℚ) ^ (63 : ℤ)) : rnd24 q ≤ (2 : ℚ) ^ (floorLog2 q + 1) := by
  obtain ⟨_, hq2⟩ := floorLog2_spec h0 hlo hhi
  have hp : (0 : ℚ) < (2 : ℚ) ^ (23 - floorLog2 q) := zpow_pos (by norm_num) _
  have hmub : q * (2 : ℚ) ^ (23 - floorLog2 q) < (2 : ℚ) ^ (24 : ℤ) := by
    have := mul_lt_mul_of_pos_right hq2 hp
    rwa [← zpow_add₀ (by norm_num : (2 : ℚ) ≠ 0), show floorLog2 q + 1 + (23 - floorLog2 q) = 24
      by ring] at this
  have hceil : ⌈q * (2 : ℚ) ^ (23 - floorLog2 q)⌉ ≤ (2 : ℤ) ^ 24 := by
    rw [Int.ceil_le]
    calc q * (2 : ℚ) ^ (23 - floorLog2 q) ≤ (2 : ℚ) ^ (24 : ℤ) := le_of_lt hmub
      _ = ((2 : ℤ) ^ 24 : ℚ) := by norm_num
  have hrnd : rndInt (q * (2 : ℚ) ^ (23 - floorLog2 q)) ≤ (2 : ℤ) ^ 24 :=
    le_trans (rndInt_le_ceil _) hceil
  have hrndq : (rndInt (q * (2 : ℚ) ^ (23 - floorLog2 q)) : ℚ) ≤ (2 : ℚ) ^ (24 : ℤ) := by
    calc (rndInt (q * (2 : ℚ) ^ (23 - floorLog2 q)) : ℚ) ≤ ((2 : ℤ) ^ 24 : ℚ) := by
          exact_mod_cast hrnd
      _ = (2 : ℚ) ^ (24 : ℤ) := by norm_num
  have hp2 : (0 : ℚ) < (2 : ℚ) ^ (floorLog2 q - 23) := zpow_pos (by norm_num) _
  have := mul_le_mul_of_nonneg_right hrndq (le_of_lt hp2)
  rwa [← zpow_add₀ (by norm_num : (2 : ℚ) ≠ 0), show (24 : ℤ) + (floorLog2 q - 23) =
    floorLog2 q + 1 by ring] at this

theorem rnd24_exact {q : ℚ}
    (hz : ∃ z : ℤ, (z : ℚ) = q * (2 : ℚ) ^ (23 - floorLog2 q)) : rnd24 q = q := by
  obtain ⟨z, hzq⟩ := hz
  unfold rnd24
  rw [← hzq, rndInt_intCast, hzq, mul_assoc,
    ← zpow_add₀ (by norm_num : (2 : ℚ) ≠ 0)]
  norm_num

/-! ### Lemmas: binary32 rounding -/

theorem RN_zero : RN 0 = 0 := by simp [RN]

theorem RN_pos_eq {q : ℚ} (h0 : 0 < q) : RN q = rnd24 q := by
  rw [RN, if_neg (ne_of_gt h0), if_pos h0]

theorem RN_neg_eq {q : ℚ} (h0 : q < 0) : RN q = -rnd24 (-q) := by
  rw [RN, if_neg (ne_of_lt h0), if_neg (not_lt.mpr (le_of_lt h0))]

theorem RN_intCast (n : ℤ) (h1 : 0 ≤ n) (h2 : n ≤ 2 ^ 24) : RN (n : ℚ) = n := by
  rcases eq_or_lt_of_le h1 with h0 | h0
  · rw [← h0]
    simpa using RN_zero
  · have hq0 : (0 : ℚ) < (n : ℚ) := by exact_mod_cast h0
    have hq1n : (1 : ℚ) ≤ (n : ℚ) := by exact_mod_cast h0
    have hlo : (2 : ℚ) ^ (-63 : ℤ) ≤ (n : ℚ) := le_trans (by norm_num) hq1n
    have hq24 : (n : ℚ) ≤ (2 : ℚ) ^ (24 : ℤ) := by
      calc (n : ℚ) ≤ (((2 : ℤ) ^ 24 : ℤ) : ℚ) := by exact_mod_cast h2
        _ = (2 : ℚ) ^ (24 : ℤ) := by norm_num
    have hhi : (n : ℚ) < (2 : ℚ) ^ (63 : ℤ) := lt_of_le_of_lt hq24 (by norm_num)
    obtain ⟨hq1, hq2⟩ := floorLog2_spec hq0 hlo hhi
    have he0 : 0 ≤ floorLog2 (n : ℚ) := by
      have hx : (2 : ℚ) ^ (0 : ℤ) < (2 : ℚ) ^ (floorLog2 (n : ℚ) + 1) := by
        rw [zpow_zero]
        linarith
      rw [zpow_lt_zpow_iff_right₀ (by norm_num : (1 : ℚ) < 2)] at hx
      omega
    have he24 : floorLog2 (n : ℚ) ≤ 24 := by
      have hx : (2 : ℚ) ^ floorLog2 (n : ℚ) ≤ (2 : ℚ) ^ (24 : ℤ) := le_trans hq1 hq24
      rw [zpow_le_zpow_iff_right₀ (by norm_num : (1 : ℚ) < 2)] at hx
      exact hx
    rw [RN_pos_eq hq0]
    apply rnd24_exact
    by_cases he : floorLog2 (n : ℚ) ≤ 23
    · refine ⟨n * 2 ^ (23 - floorLog2 (n : ℚ)).toNat, ?_⟩
      have htn : (((23 - floorLog2 (n : ℚ)).toNat : ℕ) : ℤ) = 23 - floorLog2 (n : ℚ) :=
        Int.toNat_of_nonneg (by omega)
      push_cast
      rw [← zpow_natCast (2 : ℚ) (23 - floorLog2 (n : ℚ)).toNat, htn]
    · have he24x : floorLog2 (n : ℚ) = 24 := by omega
      have hn24 : (n : ℚ) = (2 : ℚ) ^ (24 : ℤ) := by
        apply le_antisymm hq24
        rw [← he24x]
        exact hq1
      refine ⟨2 ^ 23, ?_⟩
      rw [he24x, hn24, ← zpow_add₀ (by norm_num : (2 : ℚ) ≠ 0)]
      norm_num

theorem RN_pos {q : ℚ} (h0 : 0 < q) (hlo : (2 : ℚ) ^ (-63 : ℤ) ≤ q)
    (hhi : q < (2 : ℚ) ^ (63 : ℤ)) : 0 < RN q := by
  rw [RN_pos_eq h0]
  exact lt_of_lt_of_le (zpow_pos (by norm_num) _) (rnd24_ge h0 hlo hhi)

theorem RN_le_one {q : ℚ} (h0 : 0 < q) (h1 : q ≤ 1) (hlo : (2 : ℚ) ^ (-63 : ℤ) ≤ q) :
    RN q ≤ 1 := by
  have hhi : q < (2 : ℚ) ^ (63 : ℤ) := lt_of_le_of_lt h1 (by norm_num)
  rcases eq_or_lt_of_le h1 with heq | hlt
  · rw [heq]
    exact le_of_eq (by simpa using RN_intCast 1 (by norm_num) (by norm_num))
  · obtain ⟨hq1, _⟩ := floorLog2_spec h0 hlo hhi
    have hneg : floorLog2 q + 1 ≤ 0 := by
      have hx : (2 : ℚ) ^ floorLog2 q < (2 : ℚ) ^ (0 : ℤ) := by
        rw [zpow_zero]
        linarith
      rw [zpow_lt_zpow_iff_right₀ (by norm_num : (1 : ℚ) < 2)] at hx
      omega
    rw [RN_pos_eq h0]
    calc rnd24 q ≤ (2 : ℚ) ^ (floorLog2 q + 1) := rnd24_le_two h0 hlo hhi
      _ ≤ (2 : ℚ) ^ (0 : ℤ) := zpow_le_zpow_right₀ (by norm_num) hneg
      _ = 1 := zpow_zero 2

/-! ### The f32 plan computation is exact up to 2^24 -/

theorem ceil_RN_div {a b : ℤ} (ha1 : 1 ≤ a) (ha2 : a ≤ 2 ^ 24) (hb1 : 1 ≤ b)
    (hb2 : b ≤ 2 ^ 24) : ⌈RN ((a : ℚ) / b)⌉ = ⌈(a : ℚ) / b⌉ := by
  have hbq : (0 : ℚ) < (b : ℚ) := by exact_mod_cast hb1
  have haq : (0 : ℚ) < (a : ℚ) := by exact_mod_cast ha1
  have hq0 : 0 < (a : ℚ) / b := div_pos haq hbq
  obtain ⟨n, r, hnr, hr0, hrb⟩ : ∃ n r, b * n + r = a ∧ 0 ≤ r ∧ r < b :=
    ⟨a / b, a % b, Int.ediv_add_emod a b, Int.emod_nonneg a (by omega),
      Int.emod_lt_of_pos a (by omega)⟩
  have hdivq : (b : ℚ) * (n : ℚ) + (r : ℚ) = (a : ℚ) := by
    exact_mod_cast congrArg (fun z : ℤ => (z : ℚ)) hnr
  have hqnr : (a : ℚ) / b = (n : ℚ) + (r : ℚ) / b := by
    field_simp
    linarith
  rcases eq_or_lt_of_le hr0 with hrz | hrpos
  · -- the quotient is an integer: binary32 represents it exactly
    have hbn : b * n = a := by linarith
    have hn1 : 1 ≤ n := by
      rcases le_or_lt 1 n with h | h
      · exact h
      · exfalso
        have hx : b * n ≤ b * 0 := mul_le_mul_of_nonneg_left (by omega) (by omega)
        simp at hx
        linarith
    have hna : n ≤ a := by
      have hx : 1 * n ≤ b * n := mul_le_mul_of_nonneg_right hb1 (by omega)
      simp at hx
      linarith
    have hqn : (a : ℚ) / b = (n : ℚ) := by
      rw [hqnr, ← hrz]
      simp
    rw [hqn, RN_intCast n (by omega) (by omega), Int.ceil_intCast]
  · rcases lt_or_le a b with hab | hab
    · -- 0 < q < 1: the rounding stays in (0, 1], both ceilings are 1
      have hq1 : (a : ℚ) / b < 1 := (div_lt_one hbq).mpr (by exact_mod_cast hab)
      have hq_lb : (2 : ℚ) ^ (-63 : ℤ) ≤ (a : ℚ) / b := by
        calc (2 : ℚ) ^ (-63 : ℤ) ≤ 1 / (2 ^ 24 : ℚ) := by norm_num
          _ ≤ (a : ℚ) / b := by
            rw [div_le_div_iff (by norm_num) hbq]
            have hb24 : (b : ℚ) ≤ (2 ^ 24 : ℚ) := by exact_mod_cast hb2
            have ha1q : (1 : ℚ) ≤ (a : ℚ) := by exact_mod_cast ha1
            nlinarith
      have hrnpos : 0 < RN ((a : ℚ) / b) :=
        RN_pos hq0 hq_lb (lt_trans hq1 (by norm_num))
      have hrnle : RN ((a : ℚ) / b) ≤ 1 := RN_le_one hq0 (le_of_lt hq1) hq_lb
      have hceil1 : ⌈(a : ℚ) / b⌉ = 1 := by
        rw [Int.ceil_eq_iff]
        constructor
        · push_cast
          linarith
        · push_cast
          linarith
      have hceil2 : ⌈RN ((a : ℚ) / b)⌉ = 1 := by
        rw [Int.ceil_eq_iff]
        constructor
        · push_cast
          linarith
        · push_cast
          linarith
      rw [hceil1, hceil2]
    · -- q ≥ 1 and not an integer
      have hq1 : (1 : ℚ) ≤ (a : ℚ) / b := (one_le_div hbq).mpr (by exact_mod_cast hab)
      have hlo : (2 : ℚ) ^ (-63 : ℤ) ≤ (a : ℚ) / b := le_trans (by norm_num) hq1
      have haq24 : (a : ℚ) ≤ (2 : ℚ) ^ (24 : ℤ) := by
        calc (a : ℚ) ≤ (((2 : ℤ) ^ 24 : ℤ) : ℚ) := by exact_mod_cast ha2
          _ = (2 : ℚ) ^ (24 : ℤ) := by norm_num
      have hq_le_a : (a : ℚ) / b ≤ (a : ℚ) := by
        apply div_le_self (le_of_lt haq)
        exact_mod_cast hb1
      have hhi : (a : ℚ) / b < (2 : ℚ) ^ (63 : ℤ) :=
        lt_of_le_of_lt (le_trans hq_le_a haq24) (by norm_num)
      obtain ⟨he1, he2⟩ := floorLog2_spec hq0 hlo hhi
      have he0 : 0 ≤ floorLog2 ((a : ℚ) / b) := by
        have hx : (2 : ℚ) ^ (0 : ℤ) < (2 : ℚ) ^ (floorLog2 ((a : ℚ) / b) + 1) := by
          rw [zpow_zero]
          linarith
        rw [zpow_lt_zpow_iff_right₀ (by norm_num : (1 : ℚ) < 2)] at hx
        omega
      obtain ⟨E, hE⟩ : ∃ E : ℕ, (E : ℤ) = floorLog2 ((a : ℚ) / b) :=
        ⟨_, Int.toNat_of_nonneg he0⟩
      have hzE : (2 : ℚ) ^ floorLog2 ((a : ℚ) / b) = (((2 : ℤ) ^ E : ℤ) : ℚ) := by
        rw [← hE, zpow_natCast]
        push_cast
        ring
      have h2Epos : (0 : ℤ) < 2 ^ E := by positivity
      have hbe : (2 : ℤ) ^ E * b ≤ a := by
        rw [le_div_iff hbq] at he1
        rw [hzE] at he1
        exact_mod_cast he1
      have h24cast : ((2 : ℚ) ^ (24 : ℤ)) = (((2 : ℤ) ^ 24 : ℤ) : ℚ) := by norm_num
      -- half-ulp strictly below the fractional part r/b
      have hK1 : (2 : ℚ) ^ (floorLog2 ((a : ℚ) / b) - 24) < (r : ℚ) / b := by
        by_contra hc
        push_neg at hc
        rw [div_le_iff hbq] at hc
        have hppos : (0 : ℚ) < (2 : ℚ) ^ (24 : ℤ) := zpow_pos (by norm_num) _
        have hc2 : (r : ℚ) * (2 : ℚ) ^ (24 : ℤ) ≤
            (2 : ℚ) ^ (floorLog2 ((a : ℚ) / b) - 24) * b * (2 : ℚ) ^ (24 : ℤ) :=
          mul_le_mul_of_nonneg_right hc (le_of_lt hppos)
        have hc3 : (r : ℚ) * (2 : ℚ) ^ (24 : ℤ) ≤ (((2 : ℤ) ^ E : ℤ) : ℚ) * b := by
          calc (r : ℚ) * (2 : ℚ) ^ (24 : ℤ) ≤
              (2 : ℚ) ^ (floorLog2 ((a : ℚ) / b) - 24) * b * (2 : ℚ) ^ (24 : ℤ) := hc2
            _ = (2 : ℚ) ^ (floorLog2 ((a : ℚ) / b) - 24 + 24) * b := by
                rw [zpow_add₀ (by norm_num : (2 : ℚ) ≠ 0)]
                ring
            _ = (2 : ℚ) ^ floorLog2 ((a : ℚ) / b) * b := by
                congr 2
                ring
            _ = (((2 : ℤ) ^ E : ℤ) : ℚ) * b := by rw [hzE]
        have hc4 : r * 2 ^ 24 ≤ 2 ^ E * b := by
          rw [h24cast] at hc3
          exact_mod_cast hc3
        have hr24 : (2 : ℤ) ^ 24 ≤ r * 2 ^ 24 := by linarith
        have hreq : r = 1 := by linarith
        have ha24 : a = 2 ^ 24 := by linarith
        have hprod : (2 : ℤ) ^ E * b = 2 ^ 24 := by linarith
        have hmul1 : b * ((2 : ℤ) ^ E - n) = 1 := by
          have hx : b * (2 : ℤ) ^ E = 2 ^ 24 := by
            rw [mul_comm]
            exact hprod
          rw [mul_sub]
          linarith
        have hdvd : b ∣ 1 := ⟨_, hmul1.symm⟩
        have hble : b ≤ 1 := Int.le_of_dvd one_pos hdvd
        omega
      -- half-ulp at most the co-fractional part (b - r)/b
      have hK2 : (2 : ℚ) ^ (floorLog2 ((a : ℚ) / b) - 24) ≤ ((b - r : ℤ) : ℚ) / b := by
        by_contra hc
        push_neg at hc
        rw [div_lt_iff hbq] at hc
        have hppos : (0 : ℚ) < (2 : ℚ) ^ (24 : ℤ) := zpow_pos (by norm_num) _
        have hc2 : ((b - r : ℤ) : ℚ) * (2 : ℚ) ^ (24 : ℤ) <
            (((2 : ℤ) ^ E : ℤ) : ℚ) * b := by
          calc ((b - r : ℤ) : ℚ) * (2 : ℚ) ^ (24 : ℤ) <
              (2 : ℚ) ^ (floorLog2 ((a : ℚ) / b) - 24) * b * (2 : ℚ) ^ (24 : ℤ) :=
                mul_lt_mul_of_pos_right hc hppos
            _ = (2 : ℚ) ^ (floorLog2 ((a : ℚ) / b) - 24 + 24) * b := by
                rw [zpow_add₀ (by norm_num : (2 : ℚ) ≠ 0)]
                ring
            _ = (2 : ℚ) ^ floorLog2 ((a : ℚ) / b) * b := by
                congr 2
                ring
            _ = (((2 : ℤ) ^ E : ℤ) : ℚ) * b := by rw [hzE]
        have hc4 : (b - r) * 2 ^ 24 < 2 ^ E * b := by
          rw [h24cast] at hc2
          exact_mod_cast hc2
        have hbr1 : b - r < 1 := by linarith
        linarith
      -- sandwich the rounded quotient in (n, n+1]
      have hlow : (n : ℚ) < RN ((a : ℚ) / b) := by
        rw [RN_pos_eq hq0]
        have h1 := rnd24_lower ((a : ℚ) / b)
        linarith [hqnr, hK1]
      have hhigh : RN ((a : ℚ) / b) ≤ (n : ℚ) + 1 := by
        rw [RN_pos_eq hq0]
        have h1 := rnd24_upper ((a : ℚ) / b)
        have hsum : (r : ℚ) / b + ((b - r : ℤ) : ℚ) / b = 1 := by
          push_cast
          field_simp
        linarith [hqnr, hK2]
      have hfrac0 : 0 < (r : ℚ) / b := div_pos (by exact_mod_cast hrpos) hbq
      have hfrac1 : (r : ℚ) / b < 1 := (div_lt_one hbq).mpr (by exact_mod_cast hrb)
      have hceilRN : ⌈RN ((a : ℚ) / b)⌉ = n + 1 := by
        rw [Int.ceil_eq_iff]
        constructor
        · push_cast
          linarith
        · push_cast
          linarith
      have hceilq : ⌈(a : ℚ) / b⌉ = n + 1 := by
        rw [Int.ceil_eq_iff]
        constructor
        · push_cast
          linarith [hqnr]
        · push_cast
          linarith [hqnr]
      rw [hceilRN, hceilq]

/-! ### Evaluation lemmas for the F32 pipeline -/

theorem div_fin_fin (x y : ℚ) (hy : y ≠ 0) :
    divF32 (.fin x) (.fin y) = .fin (RN (x / y)) := by
  simp [divF32, hy]

theorem truncQ_intCast (c : ℤ) : truncQ (c : ℚ) = c := by
  unfold truncQ
  split_ifs
  · exact Int.floor_intCast c
  · exact Int.ceil_intCast c

theorem i32cast_fin_int (c : ℤ) (h1 : -2 ^ 31 ≤ c) (h2 : c ≤ 2 ^ 31 - 1) :
    i32cast (.fin (c : ℚ)) = c := by
  simp only [i32cast, truncQ_intCast]
  omega

theorem RN_bounds_pos (x : ℤ) (h1 : 1 ≤ x) (h2 : x ≤ 2 ^ 31) :
    1 ≤ rnd24 (x : ℚ) ∧ rnd24 (x : ℚ) ≤ (2 : ℚ) ^ (32 : ℤ) := by
  have hq0 : (0 : ℚ) < (x : ℚ) := by exact_mod_cast h1
  have hq1 : (1 : ℚ) ≤ (x : ℚ) := by exact_mod_cast h1
  have hq31 : (x : ℚ) ≤ (2 : ℚ) ^ (31 : ℤ) := by
    calc (x : ℚ) ≤ (((2 : ℤ) ^ 31 : ℤ) : ℚ) := by exact_mod_cast h2
      _ = (2 : ℚ) ^ (31 : ℤ) := by norm_num
  have hlo : (2 : ℚ) ^ (-63 : ℤ) ≤ (x : ℚ) := le_trans (by norm_num) hq1
  have hhi : (x : ℚ) < (2 : ℚ) ^ (63 : ℤ) := lt_of_le_of_lt hq31 (by norm_num)
  obtain ⟨he1, he2⟩ := floorLog2_spec hq0 hlo hhi
  have he0 : 0 ≤ floorLog2 (x : ℚ) := by
    have hx : (2 : ℚ) ^ (0 : ℤ) < (2 : ℚ) ^ (floorLog2 (x : ℚ) + 1) := by
      rw [zpow_zero]
      linarith
    rw [zpow_lt_zpow_iff_right₀ (by norm_num : (1 : ℚ) < 2)] at hx
    omega
  have he31 : floorLog2 (x : ℚ) ≤ 31 := by
    have hx : (2 : ℚ) ^ floorLog2 (x : ℚ) ≤ (2 : ℚ) ^ (31 : ℤ) := le_trans he1 hq31
    rw [zpow_le_zpow_iff_right₀ (by norm_num : (1 : ℚ) < 2)] at hx
    exact hx
  constructor
  · calc (1 : ℚ) = (2 : ℚ) ^ (0 : ℤ) := (zpow_zero 2).symm
      _ ≤ (2 : ℚ) ^ floorLog2 (x : ℚ) := zpow_le_zpow_right₀ (by norm_num) he0
      _ ≤ rnd24 (x : ℚ) := rnd24_ge hq0 hlo hhi
  · calc rnd24 (x : ℚ) ≤ (2 : ℚ) ^ (floorLog2 (x : ℚ) + 1) := rnd24_le_two hq0 hlo hhi
      _ ≤ (2 : ℚ) ^ (32 : ℤ) := zpow_le_zpow_right₀ (by norm_num) (by omega)

/-! ### The Plan step: totalPages -/

theorem totalPages_eq_ceil (tc ps : ℤ) (h1 : 0 ≤ tc) (h2 : tc ≤ 2 ^ 24)
    (h3 : 0 < ps) (h4 : ps < 2 ^ 31) :
    totalPages tc ps = ⌈(tc : ℚ) / (ps : ℚ)⌉ := by
  have hpsq : (0 : ℚ) < (ps : ℚ) := by exact_mod_cast h3
  have hps1 : (1 : ℚ) ≤ (ps : ℚ) := by exact_mod_cast h3
  have hpslo : (2 : ℚ) ^ (-63 : ℤ) ≤ (ps : ℚ) := le_trans (by norm_num) hps1
  have hpshi : (ps : ℚ) < (2 : ℚ) ^ (63 : ℤ) := by
    calc (ps : ℚ) < (((2 : ℤ) ^ 31 : ℤ) : ℚ) := by exact_mod_cast h4
      _ < (2 : ℚ) ^ (63 : ℤ) := by norm_num
  rcases eq_or_lt_of_le h1 with h0 | h0
  · -- totalCount = 0: everything collapses to 0
    subst h0
    have hRNps_pos : 0 < RN (ps : ℚ) := RN_pos hpsq hpslo hpshi
    unfold totalPages ofI32
    rw [show ((0 : ℤ) : ℚ) = 0 by norm_num, RN_zero,
      div_fin_fin 0 (RN (ps : ℚ)) (ne_of_gt hRNps_pos), zero_div, RN_zero, ceilF32]
    rw [show ((⌈(0 : ℚ)⌉ : ℚ)) = ((0 : ℤ) : ℚ) by norm_num]
    rw [i32cast_fin_int 0 (by norm_num) (by norm_num)]
    simp
  · have htcq : (0 : ℚ) < (tc : ℚ) := by exact_mod_cast h0
    have hRNtc : RN ((tc : ℤ) : ℚ) = ((tc : ℤ) : ℚ) := RN_intCast tc h1 h2
    rcases le_or_lt ps (2 ^ 24) with hps24 | hps24
    · -- page size is itself exactly representable
      have hRNps : RN ((ps : ℤ) : ℚ) = ((ps : ℤ) : ℚ) := RN_intCast ps (by omega) hps24
      unfold totalPages ofI32
      rw [hRNtc, hRNps, div_fin_fin _ _ (ne_of_gt hpsq)]
      have hc := ceil_RN_div h0 h2 h3 hps24
      rw [ceilF32, hc]
      have hcle : ⌈(tc : ℚ) / (ps : ℚ)⌉ ≤ tc := by
        calc ⌈(tc : ℚ) / (ps : ℚ)⌉ ≤ ⌈(tc : ℚ)⌉ :=
              Int.ceil_le_ceil (div_le_self (le_of_lt htcq) hps1)
          _ = tc := Int.ceil_intCast tc
      have hcpos : 0 < ⌈(tc : ℚ) / (ps : ℚ)⌉ := by
        rw [Int.lt_ceil]
        push_cast
        positivity
      rw [i32cast_fin_int _ (by omega) (by omega)]
    · -- page size beyond 2^24: the quotient is in (0,1], both sides give 1
      have hps24q : (2 : ℚ) ^ (24 : ℤ) < (ps : ℚ) := by
        calc (2 : ℚ) ^ (24 : ℤ) = (((2 : ℤ) ^ 24 : ℤ) : ℚ) := by norm_num
          _ < (ps : ℚ) := by exact_mod_cast hps24
      obtain ⟨hb1, hb2⟩ := RN_bounds_pos ps (by omega) (by omega)
      have hRNps_eq : RN (ps : ℚ) = rnd24 (ps : ℚ) := RN_pos_eq hpsq
      -- RN ps ≥ 2^24 because floorLog2 ps ≥ 24
      obtain ⟨he1, he2⟩ := floorLog2_spec hpsq hpslo hpshi
      have he24 : 24 ≤ floorLog2 (ps : ℚ) := by
        have hx : (2 : ℚ) ^ (24 : ℤ) < (2 : ℚ) ^ (floorLog2 (ps : ℚ) + 1) :=
          lt_of_lt_of_le (lt_of_lt_of_le hps24q (le_of_lt he2)) (le_refl _)
        rw [zpow_lt_zpow_iff_right₀ (by norm_num : (1 : ℚ) < 2)] at hx
        omega
      have hRNps_ge : (2 : ℚ) ^ (24 : ℤ) ≤ RN (ps : ℚ) := by
        rw [hRNps_eq]
        calc (2 : ℚ) ^ (24 : ℤ) ≤ (2 : ℚ) ^ floorLog2 (ps : ℚ) :=
              zpow_le_zpow_right₀ (by norm_num) he24
          _ ≤ rnd24 (ps : ℚ) := rnd24_ge hpsq hpslo hpshi
      have hRNps_pos : 0 < RN (ps : ℚ) :=
        lt_of_lt_of_le (by positivity) hRNps_ge
      have htc24 : (tc : ℚ) ≤ (2 : ℚ) ^ (24 : ℤ) := by
        calc (tc : ℚ) ≤ (((2 : ℤ) ^ 24 : ℤ) : ℚ) := by exact_mod_cast h2
          _ = (2 : ℚ) ^ (24 : ℤ) := by norm_num
      have hq0 : 0 < (tc : ℚ) / RN (ps : ℚ) := div_pos htcq hRNps_pos
      have hqle1 : (tc : ℚ) / RN (ps : ℚ) ≤ 1 :=
        (div_le_one hRNps_pos).mpr (le_trans htc24 hRNps_ge)
      have hqlo : (2 : ℚ) ^ (-63 : ℤ) ≤ (tc : ℚ) / RN (ps : ℚ) := by
        have htc1 : (1 : ℚ) ≤ (tc : ℚ) := by exact_mod_cast h0
        have hub : RN (ps : ℚ) ≤ (2 : ℚ) ^ (32 : ℤ) := by
          rw [hRNps_eq]
          exact hb2
        calc (2 : ℚ) ^ (-63 : ℤ) ≤ 1 / (2 : ℚ) ^ (32 : ℤ) := by norm_num
          _ ≤ (tc : ℚ) / RN (ps : ℚ) := by
            rw [div_le_div_iff (by positivity) hRNps_pos]
            nlinarith
      have hRNq_pos : 0 < RN ((tc : ℚ) / RN (ps : ℚ)) :=
        RN_pos hq0 hqlo (lt_of_le_of_lt hqle1 (by norm_num))
      have hRNq_le : RN ((tc : ℚ) / RN (ps : ℚ)) ≤ 1 := RN_le_one hq0 hqle1 hqlo
      unfold totalPages ofI32
      rw [hRNtc, div_fin_fin _ _ (ne_of_gt hRNps_pos)]
      have hceil1 : ⌈RN ((tc : ℚ) / RN (ps : ℚ))⌉ = 1 := by
        rw [Int.ceil_eq_iff]
        constructor
        · push_cast
          linarith
        · push_cast
          linarith
      rw [ceilF32, hceil1, i32cast_fin_int 1 (by norm_num) (by norm_num)]
      have hq1 : (tc : ℚ) / (ps : ℚ) < 1 := (div_lt_one hpsq).mpr
        (lt_of_le_of_lt htc24 hps24q)
      have hqpos : 0 < (tc : ℚ) / (ps : ℚ) := div_pos htcq hpsq
      have hceil2 : ⌈(tc : ℚ) / (ps : ℚ)⌉ = 1 := by
        rw [Int.ceil_eq_iff]
        constructor
        · push_cast
          linarith
        · push_cast
          linarith
      rw [hceil2]

theorem totalPages_zero (ps : ℤ) : totalPages 0 ps = 0 := by
  unfold totalPages ofI32
  rw [show ((0 : ℤ) : ℚ) = 0 by norm_num, RN_zero]
  by_cases hy : RN ((ps : ℤ) : ℚ) = 0
  · rw [hy]
    simp [divF32, ceilF32, i32cast]
  · rw [div_fin_fin 0 _ hy, zero_div, RN_zero, ceilF32]
    rw [show ((⌈(0 : ℚ)⌉ : ℚ)) = ((0 : ℤ) : ℚ) by norm_num]
    rw [i32cast_fin_int 0 (by norm_num) (by norm_num)]

theorem totalPages_satur (tc : ℤ) (h1 : 0 < tc) (h2 : tc < 2 ^ 31) :
    totalPages tc 0 = 2 ^ 31 - 1 := by
  have htcq : (0 : ℚ) < (tc : ℚ) := by exact_mod_cast h1
  have htc1 : (1 : ℚ) ≤ (tc : ℚ) := by exact_mod_cast h1
  have hlo : (2 : ℚ) ^ (-63 : ℤ) ≤ (tc : ℚ) := le_trans (by norm_num) htc1
  have hhi : (tc : ℚ) < (2 : ℚ) ^ (63 : ℤ) := by
    calc (tc : ℚ) < (((2 : ℤ) ^ 31 : ℤ) : ℚ) := by exact_mod_cast h2
      _ < (2 : ℚ) ^ (63 : ℤ) := by norm_num
  have hRNtc_pos : 0 < RN (tc : ℚ) := RN_pos htcq hlo hhi
  unfold totalPages ofI32
  rw [show ((0 : ℤ) : ℚ) = 0 by norm_num, RN_zero]
  have hdiv : divF32 (.fin (RN (tc : ℚ))) (.fin 0) = .inf := by
    simp [divF32, ne_of_gt hRNtc_pos, hRNtc_pos]
  rw [hdiv]
  rfl

theorem totalPages_nonpos (tc ps : ℤ) (h1 : 0 ≤ tc) (h2 : tc < 2 ^ 31)
    (h3 : -2 ^ 31 ≤ ps) (h4 : ps < 0) : totalPages tc ps ≤ 0 := by
  rcases eq_or_lt_of_le h1 with h0 | h0
  · rw [← h0, totalPages_zero]
  · have hpsq : ((ps : ℤ) : ℚ) < 0 := by exact_mod_cast h4
    have hRNps : RN ((ps : ℤ) : ℚ) = -rnd24 (-((ps : ℤ) : ℚ)) := RN_neg_eq hpsq
    have hnegps : (-((ps : ℤ) : ℚ)) = (((-ps : ℤ) : ℤ) : ℚ) := by push_cast; ring
    obtain ⟨hbl, hbu⟩ := RN_bounds_pos (-ps) (by omega) (by omega)
    have hbl' : 1 ≤ rnd24 (-((ps : ℤ) : ℚ)) := by
      rw [hnegps]
      exact_mod_cast hbl
    have hbu' : rnd24 (-((ps : ℤ) : ℚ)) ≤ (2 : ℚ) ^ (32 : ℤ) := by
      rw [hnegps]
      exact_mod_cast hbu
    have hRNps_neg : RN ((ps : ℤ) : ℚ) < 0 := by
      rw [hRNps]
      linarith
    obtain ⟨htl, htu⟩ := RN_bounds_pos tc (by omega) (by omega)
    have htcq : (0 : ℚ) < (tc : ℚ) := by exact_mod_cast h0
    have hRNtc_eq : RN ((tc : ℤ) : ℚ) = rnd24 ((tc : ℤ) : ℚ) := RN_pos_eq htcq
    have htl' : 1 ≤ RN ((tc : ℤ) : ℚ) := by rw [hRNtc_eq]; exact htl
    have htu' : RN ((tc : ℤ) : ℚ) ≤ (2 : ℚ) ^ (32 : ℤ) := by rw [hRNtc_eq]; exact htu
    have hq_neg : RN ((tc : ℤ) : ℚ) / RN ((ps : ℤ) : ℚ) < 0 :=
      div_neg_of_pos_of_neg (by linarith) hRNps_neg
    -- the rounded quotient is negative
    have hmq_pos : 0 < -(RN ((tc : ℤ) : ℚ) / RN ((ps : ℤ) : ℚ)) := by linarith
    have hmq_eq : -(RN ((tc : ℤ) : ℚ) / RN ((ps : ℤ) : ℚ)) =
        RN ((tc : ℤ) : ℚ) / rnd24 (-((ps : ℤ) : ℚ)) := by
      rw [hRNps]
      field_simp
    have hmq_lo : (2 : ℚ) ^ (-63 : ℤ) ≤ -(RN ((tc : ℤ) : ℚ) / RN ((ps : ℤ) : ℚ)) := by
      rw [hmq_eq]
      calc (2 : ℚ) ^ (-63 : ℤ) ≤ 1 / (2 : ℚ) ^ (32 : ℤ) := by norm_num
        _ ≤ RN ((tc : ℤ) : ℚ) / rnd24 (-((ps : ℤ) : ℚ)) := by
          rw [div_le_div_iff (by positivity) (by linarith)]
          nlinarith
    have hmq_hi : -(RN ((tc : ℤ) : ℚ) / RN ((ps : ℤ) : ℚ)) < (2 : ℚ) ^ (63 : ℤ) := by
      rw [hmq_eq]
      have hle : RN ((tc : ℤ) : ℚ) / rnd24 (-((ps : ℤ) : ℚ)) ≤ RN ((tc : ℤ) : ℚ) :=
        div_le_self (by linarith) hbl'
      calc RN ((tc : ℤ) : ℚ) / rnd24 (-((ps : ℤ) : ℚ)) ≤ RN ((tc : ℤ) : ℚ) := hle
        _ ≤ (2 : ℚ) ^ (32 : ℤ) := htu'
        _ < (2 : ℚ) ^ (63 : ℤ) := by norm_num
    have hRNq_neg : RN (RN ((tc : ℤ) : ℚ) / RN ((ps : ℤ) : ℚ)) < 0 := by
      rw [RN_neg_eq hq_neg]
      have := rnd24_ge hmq_pos hmq_lo hmq_hi
      have hp : (0 : ℚ) < (2 : ℚ) ^ floorLog2 (-(RN ((tc : ℤ) : ℚ) / RN ((ps : ℤ) : ℚ))) :=
        zpow_pos (by norm_num) _
      linarith
    have hceil_np : ⌈RN (RN ((tc : ℤ) : ℚ) / RN ((ps : ℤ) : ℚ))⌉ ≤ 0 := by
      rw [Int.ceil_le]
      push_cast
      linarith
    unfold totalPages ofI32
    rw [div_fin_fin _ _ (ne_of_lt hRNps_neg), ceilF32]
    simp only [i32cast, truncQ_intCast]
    omega

/-! ### Concrete evaluation: 2^24 + 1 is not representable in binary32 -/

theorem floorLog2_16777217 : floorLog2 (16777217 : ℚ) = 24 := by
  apply floorLog2_eq (by norm_num) (by norm_num) (by norm_num)
  · norm_num
  · norm_num

theorem rndInt_tie_16777217 : rndInt ((16777217 : ℚ) * (2 : ℚ) ^ ((23 : ℤ) - 24)) = 8388608 := by
  have hval : (16777217 : ℚ) * (2 : ℚ) ^ ((23 : ℤ) - 24) = 16777217 / 2 := by norm_num
  rw [hval]
  have hfl : ⌊(16777217 : ℚ) / 2⌋ = 8388608 := by
    rw [Int.floor_eq_iff]
    constructor
    · norm_num
    · norm_num
  unfold rndInt
  rw [hfl]
  have h1 : ¬((16777217 : ℚ) / 2 - ((8388608 : ℤ) : ℚ) < 1 / 2) := by norm_num
  have h2 : ¬((1 : ℚ) / 2 < (16777217 : ℚ) / 2 - ((8388608 : ℤ) : ℚ)) := by norm_num
  have h3 : (2 : ℤ) ∣ 8388608 := by norm_num
  rw [if_neg h1, if_neg h2, if_pos h3]

theorem RN_16777217 : RN (16777217 : ℚ) = 16777216 := by
  rw [RN_pos_eq (by norm_num)]
  unfold rnd24
  rw [floorLog2_16777217, rndInt_tie_16777217]
  norm_num

theorem totalPages_16777217 : totalPages 16777217 1 = 16777216 := by
  have hRN1 : RN (1 : ℚ) = 1 := by
    have := RN_intCast 1 (by norm_num) (by norm_num)
    simpa using this
  have hRN16M : RN ((16777216 : ℚ)) = 16777216 := by
    have := RN_intCast 16777216 (by norm_num) (by norm_num)
    simpa using this
  unfold totalPages ofI32
  rw [show ((16777217 : ℤ) : ℚ) = (16777217 : ℚ) by norm_num,
    show ((1 : ℤ) : ℚ) = (1 : ℚ) by norm_num, RN_16777217, hRN1,
    div_fin_fin _ _ one_ne_zero, div_one, hRN16M, ceilF32]
  rw [show ((⌈(16777216 : ℚ)⌉ : ℚ)) = ((16777216 : ℤ) : ℚ) by norm_num]
  rw [i32cast_fin_int 16777216 (by norm_num) (by norm_num)]

/-! ### Lemmas: pointer resolution on single-segment paths -/

theorem splitChar_ne_nil (c : Char) (l : List Char) : splitChar c l ≠ [] := by
  cases l with
  | nil => simp [splitChar]
  | cons a rest =>
    simp only [splitChar]
    split
    · simp
    · split_ifs <;> simp

theorem splitChar_not_mem (c : Char) (l : List Char) (h : c ∉ l) : splitChar c l = [l] := by
  induction l with
  | nil => rfl
  | cons a rest ih =>
    have hne : ¬(a = c) := by
      intro hc
      exact h (by rw [hc]; exact List.mem_cons_self c rest)
    have hrest : c ∉ rest := fun hc => h (List.mem_cons_of_mem _ hc)
    simp [splitChar, ih hrest, hne]

theorem replace2_not_mem (p1 p2 r : Char) :
    ∀ l : List Char, p1 ∉ l → replace2 p1 p2 r l = l
  | [], _ => rfl
  | [_], _ => rfl
  | a :: b :: rest, h => by
    have ha : ¬(a = p1 ∧ b = p2) := by
      rintro ⟨h1, _⟩
      exact h (by rw [h1]; exact List.mem_cons_self p1 (b :: rest))
    simp only [replace2]
    rw [if_neg ha]
    have htail : p1 ∉ b :: rest := fun hc => h (List.mem_cons_of_mem _ hc)
    rw [replace2_not_mem p1 p2 r (b :: rest) htail]

theorem unescapeToken_id (t : List Char) (h : '~' ∉ t) : unescapeToken t = t := by
  unfold unescapeToken
  rw [replace2_not_mem _ _ _ t h, replace2_not_mem _ _ _ t h]

theorem pointer_single (path : String) (v : Json) (hs : '/' ∉ path.data)
    (ht : '~' ∉ path.data) :
    Json.pointer ("/" ++ path) v = jstep v path.data := by
  have hdata : ("/" ++ path).data = '/' :: path.data := by
    rw [String.data_append]
    rfl
  have hne : ¬("/" ++ path = "") := by
    intro hc
    have hx := congrArg String.data hc
    rw [hdata] at hx
    simp at hx
  unfold Json.pointer
  rw [if_neg hne]
  simp only [hdata]
  have hsplit : splitChar '/' ('/' :: path.data) = [] :: [path.data] := by
    have h1 : splitChar '/' path.data = [path.data] := splitChar_not_mem _ _ hs
    simp [splitChar, h1]
  rw [hsplit]
  simp [unescapeToken_id path.data ht]

/-! ### Lemmas: the run controller -/

theorem run_probe_err (fetch : ℤ → Except String Json) (cfg : RunConfig) (e : String)
    (h : fetch 1 = .error e) : Scraper.run fetch cfg = ⟨[1], [], false⟩ := by
  unfold Scraper.run
  rw [h]

theorem run_count_err (fetch : ℤ → Except String Json) (cfg : RunConfig) (r : Json)
    (e : String) (h1 : fetch 1 = .ok r)
    (h2 : get_total_count cfg.totalCountPath r = .error e) :
    Scraper.run fetch cfg = ⟨[1], [], false⟩ := by
  unfold Scraper.run
  rw [h1]
  dsimp only
  rw [h2]

theorem run_probe_ok (fetch : ℤ → Except String Json) (cfg : RunConfig) (r : Json)
    (tc : ℤ) (h1 : fetch 1 = .ok r) (h2 : get_total_count cfg.totalCountPath r = .ok tc) :
    Scraper.run fetch cfg =
      ⟨1 :: (runLoop fetch cfg.dataPath (pageRange (totalPages tc cfg.pageSize))).1,
       (runLoop fetch cfg.dataPath (pageRange (totalPages tc cfg.pageSize))).2.1,
       (runLoop fetch cfg.dataPath (pageRange (totalPages tc cfg.pageSize))).2.2⟩ := by
  unfold Scraper.run
  rw [h1]
  dsimp only
  rw [h2]

theorem pageRange_nonpos (tp : ℤ) (h : tp ≤ 0) : pageRange tp = [] := by
  unfold pageRange
  rw [Int.toNat_of_nonpos h]
  rfl

theorem pageRange_pos_head (tp : ℤ) (h : 1 ≤ tp) : ∃ rest, pageRange tp = 1 :: rest := by
  unfold pageRange
  obtain ⟨m, hm⟩ : ∃ m, tp.toNat = m + 1 := ⟨tp.toNat - 1, by omega⟩
  rw [hm, List.range_succ_eq_map]
  exact ⟨(List.map Nat.succ (List.range m)).map (fun i => (i : ℤ) + 1), by simp⟩

theorem runLoop_all_ok (fetch : ℤ → Except String Json) (dp : String) :
    ∀ pages : List ℤ,
      (∀ p ∈ pages, ∃ resp d, fetch p = .ok resp ∧ extract_data dp resp = some d) →
      (runLoop fetch dp pages).1 = pages ∧ (runLoop fetch dp pages).2.2 = true ∧
        ∀ p ∈ pages, ∃ d, (p, d) ∈ (runLoop fetch dp pages).2.1
  | [], _ => ⟨rfl, rfl, by simp⟩
  | p :: rest, h => by
    obtain ⟨resp, d, hf, he⟩ := h p (List.mem_cons_self _ _)
    have ih := runLoop_all_ok fetch dp rest (fun x hx => h x (List.mem_cons_of_mem _ hx))
    simp only [runLoop, hf, he]
    refine ⟨by simp [ih.1], by simp [ih.2.1], ?_⟩
    intro x hx
    rcases List.mem_cons.mp hx with rfl | hx2
    · exact ⟨d, by simp⟩
    · obtain ⟨d2, hd2⟩ := ih.2.2 x hx2
      exact ⟨d2, by simp [hd2]⟩

theorem runLoop_skip (fetch : ℤ → Except String Json) (dp : String) (k : ℤ) (e : String)
    (hk : fetch k = .error e) :
    ∀ pages : List ℤ,
      (∀ p ∈ pages, p ≠ k → ∃ resp d, fetch p = .ok resp ∧ extract_data dp resp = some d) →
      (runLoop fetch dp pages).1 = pages ∧ (runLoop fetch dp pages).2.2 = true ∧
        (∀ p ∈ pages, p ≠ k → ∃ d, (p, d) ∈ (runLoop fetch dp pages).2.1) ∧
        ∀ d, (k, d) ∉ (runLoop fetch dp pages).2.1
  | [], _ => ⟨rfl, rfl, by simp, by simp [runLoop]⟩
  | p :: rest, h => by
    have ih := runLoop_skip fetch dp k e hk rest
      (fun x hx hxk => h x (List.mem_cons_of_mem _ hx) hxk)
    by_cases hpk : p = k
    · subst hpk
      simp only [runLoop, hk]
      refine ⟨by simp [ih.1], by simp [ih.2.1], ?_, ?_⟩
      · intro x hx hxk
        rcases List.mem_cons.mp hx with rfl | hx2
        · exact absurd rfl hxk
        · obtain ⟨d2, hd2⟩ := ih.2.2.1 x hx2 hxk
          exact ⟨d2, by simp [hd2]⟩
      · intro d hd
        exact ih.2.2.2 d hd
    · obtain ⟨resp, d, hf, he⟩ := h p (List.mem_cons_self _ _) (fun hc => hpk hc)
      simp only [runLoop, hf, he]
      refine ⟨by simp [ih.1], by simp [ih.2.1], ?_, ?_⟩
      · intro x hx hxk
        rcases List.mem_cons.mp hx with rfl | hx2
        · exact ⟨d, by simp⟩
        · obtain ⟨d2, hd2⟩ := ih.2.2.1 x hx2 hxk
          exact ⟨d2, by simp [hd2]⟩
      · intro d2 hd2
        simp only [List.mem_cons] at hd2
        rcases hd2 with heq | hmem
        · have : k = p := congrArg Prod.fst heq
          exact hpk this.symm
        · exact ih.2.2.2 d2 hmem

theorem runLoop_abort (fetch : ℤ → Except String Json) (dp : String) (p : ℤ)
    (rest : List ℤ) (resp : Json) (hf : fetch p = .ok resp)
    (he : extract_data dp resp = none) :
    runLoop fetch dp (p :: rest) = ([p], [], false) := by
  simp only [runLoop, hf, he]

theorem runLoop_head_fetch (fetch : ℤ → Except String Json) (dp : String) (p : ℤ)
    (rest : List ℤ) : ∃ fs, (runLoop fetch dp (p :: rest)).1 = p :: fs := by
  cases hf : fetch p with
  | ok resp =>
    cases he : extract_data dp resp with
    | some d =>
      refine ⟨(runLoop fetch dp rest).1, ?_⟩
      simp only [runLoop, hf, he]
    | none =>
      rw [runLoop_abort fetch dp p rest resp hf he]
      exact ⟨[], rfl⟩
  | error e =>
    refine ⟨(runLoop fetch dp rest).1, ?_⟩
    simp only [runLoop, hf]

/-! ### Small evaluation helpers shared by witnesses -/

theorem totalPages_one_one : totalPages 1 1 = 1 := by
  rw [totalPages_eq_ceil 1 1 (by norm_num) (by norm_num) (by norm_num) (by norm_num)]
  rw [show ((1 : ℤ) : ℚ) / ((1 : ℤ) : ℚ) = ((1 : ℤ) : ℚ) by norm_num, Int.ceil_intCast]

theorem totalPages_two_one : totalPages 2 1 = 2 := by
  rw [totalPages_eq_ceil 2 1 (by norm_num) (by norm_num) (by norm_num) (by norm_num)]
  rw [show ((2 : ℤ) : ℚ) / ((1 : ℤ) : ℚ) = ((2 : ℤ) : ℚ) by norm_num, Int.ceil_intCast]

theorem totalPages_three_one : totalPages 3 1 = 3 := by
  rw [totalPages_eq_ceil 3 1 (by norm_num) (by norm_num) (by norm_num) (by norm_num)]
  rw [show ((3 : ℤ) : ℚ) / ((1 : ℤ) : ℚ) = ((3 : ℤ) : ℚ) by norm_num, Int.ceil_intCast]

theorem gtc_error_char (path : String) (resp : Json)
    (hnone : (Json.pointer ("/" ++ path) resp).bind as_i64 = none) :
    get_total_count path resp = .error "Could not find total count in response" := by
  unfold get_total_count
  rw [hnone]

theorem gtc_ok_char (path : String) (resp : Json) (m : ℤ)
    (hsome : (Json.pointer ("/" ++ path) resp).bind as_i64 = some m) :
    get_total_count path resp = .ok (wrap32 m) := by
  unfold get_total_count
  rw [hsome]

theorem bind_as_i64_some (o : Option Json) (m : ℤ) :
    o.bind as_i64 = some m ↔
      o = some (Json.num (JNum.int m)) ∧ -2 ^ 63 ≤ m ∧ m < 2 ^ 63 := by
  cases o with
  | none => simp
  | some j =>
    cases j with
    | num jn =>
      cases jn with
      | int n =>
        by_cases h : -2 ^ 63 ≤ n ∧ n < 2 ^ 63
        · simp only [Option.some_bind, as_i64, if_pos h]
          constructor
          · intro hnm
            have hx : n = m := Option.some.inj hnm
            subst hx
            exact ⟨rfl, h.1, h.2⟩
          · rintro ⟨heq, _, _⟩
            have hx : n = m := by
              simp only [Option.some.injEq, Json.num.injEq, JNum.int.injEq] at heq
              exact heq
            rw [hx]
        · simp only [Option.some_bind, as_i64, if_neg h]
          constructor
          · intro hc
            exact absurd hc (by simp)
          · rintro ⟨heq, h1, h2⟩
            have hx : n = m := by
              simp only [Option.some.injEq, Json.num.injEq, JNum.int.injEq] at heq
              exact heq
            subst hx
            exact absurd ⟨h1, h2⟩ h
      | float => simp [as_i64]
    | null => simp [as_i64]
    | bool b => simp [as_i64]
    | str s0 => simp [as_i64]
    | arr xs => simp [as_i64]
    | obj fl => simp [as_i64]

theorem gtc_ok_range (path : String) (resp : Json) (tc : ℤ)
    (h : get_total_count path resp = .ok tc) : -2 ^ 31 ≤ tc ∧ tc < 2 ^ 31 := by
  unfold get_total_count at h
  rcases ho : (Json.pointer ("/" ++ path) resp).bind as_i64 with _ | v
  · rw [ho] at h
    exact absurd h (by simp)
  · rw [ho] at h
    have hv : wrap32 v = tc := by
      simp only [Except.ok.injEq] at h
      exact h
    rw [← hv]
    exact ⟨wrap32_lb v, wrap32_ub v⟩

/-! ### Claims -/

/-- C2 (corrected), counterexample: the Plan step computes `total_pages`
through `f32`, which cannot represent `2^24 + 1 = 16777217`; with
`pageSize = 1` the code yields 16777216 pages instead of the exact ceiling
16777217, so the claim's universally quantified equality fails at this
valid input pair. -/
theorem claim_C2_cex :
    totalPages 16777217 1 ≠ ⌈(16777217 : ℚ) / ((1 : ℤ) : ℚ)⌉ ∧
      totalPages 16777217 1 = 16777216 := by
  have hceil : ⌈(16777217 : ℚ) / ((1 : ℤ) : ℚ)⌉ = 16777217 := by
    rw [show ((1 : ℤ) : ℚ) = 1 by norm_num, div_one,
      show (16777217 : ℚ) = ((16777217 : ℤ) : ℚ) by norm_num, Int.ceil_intCast]
  constructor
  · rw [totalPages_16777217, hceil]
    norm_num
  · exact totalPages_16777217

/-- C2 (amended): for totalCount in `[0, 2^24]` — the range on which the
`f32` significand is exact — and any positive i32 pageSize, the computed
`total_pages` equals the exact integer ceiling of totalCount / pageSize.
Beyond `2^24` the float computation can lose precision (see the
counterexample). -/
theorem claim_C2 (tc ps : ℤ) (h1 : 0 ≤ tc) (h2 : tc ≤ 2 ^ 24) (h3 : 0 < ps)
    (h4 : ps < 2 ^ 31) : totalPages tc ps = ⌈(tc : ℚ) / (ps : ℚ)⌉ :=
  totalPages_eq_ceil tc ps h1 h2 h3 h4

/-- C2 witness: Scenario A — totalCount 500, pageSize 250 gives exactly
2 pages. -/
theorem claim_C2_w :
    totalPages 500 250 = ⌈((500 : ℤ) : ℚ) / ((250 : ℤ) : ℚ)⌉ ∧
      ⌈((500 : ℤ) : ℚ) / ((250 : ℤ) : ℚ)⌉ = 2 := by
  constructor
  · exact claim_C2 500 250 (by norm_num) (by norm_num) (by norm_num) (by norm_num)
  · rw [show ((500 : ℤ) : ℚ) / ((250 : ℤ) : ℚ) = ((2 : ℤ) : ℚ) by norm_num,
      Int.ceil_intCast]

/-- C7 (confirmed): if the probe fails — the transport/decode oracle
errors on page 1, or the total-count extraction errors on the probe
response — the run aborts before the iteration: the only fetch is the
probe, no output is written, and `run` returns an error. -/
theorem claim_C7 (fetch : ℤ → Except String Json) (cfg : RunConfig)
    (h : (∃ e, fetch 1 = .error e) ∨
      ∃ r e, fetch 1 = .ok r ∧ get_total_count cfg.totalCountPath r = .error e) :
    Scraper.run fetch cfg = ⟨[1], [], false⟩ := by
  rcases h with ⟨e, he⟩ | ⟨r, e, h1, h2⟩
  · exact run_probe_err fetch cfg e he
  · exact run_count_err fetch cfg r e h1 h2

/-- C7 witness: a run whose transport always fails performs only the probe
attempt and produces nothing. -/
theorem claim_C7_w : Scraper.run fetchErr cfgStd = ⟨[1], [], false⟩ :=
  claim_C7 fetchErr cfgStd (Or.inl ⟨"connection refused", rfl⟩)

/-- C8 (confirmed): when the extracted totalCount is 0, the planned
`total_pages` is 0 (for every pageSize, including 0 and negatives), the
loop body never runs — no per-page fetch, no output — and the run still
reports completion (`Ok`). -/
theorem claim_C8 (fetch : ℤ → Except String Json) (cfg : RunConfig) (r : Json)
    (h1 : fetch 1 = .ok r) (h2 : get_total_count cfg.totalCountPath r = .ok 0) :
    totalPages 0 cfg.pageSize = 0 ∧ Scraper.run fetch cfg = ⟨[1], [], true⟩ := by
  have htp := totalPages_zero cfg.pageSize
  refine ⟨htp, ?_⟩
  rw [run_probe_ok fetch cfg r 0 h1 h2, htp]
  rfl

/-- C8 witness: Scenario B at pageSize 1 — totalCount 0 means zero pages,
no loop fetch, completion reported. -/
theorem claim_C8_w :
    totalPages 0 cfgStd.pageSize = 0 ∧ Scraper.run fetchT0 cfgStd = ⟨[1], [], true⟩ :=
  claim_C8 fetchT0 cfgStd docT0 rfl rfl

/-- C9 (confirmed): pagination-type selection lowercases the flag and
matches only "offset" and "cursor"; every other string — including typos
such as "paage" and the empty string — silently selects the `Page`
variant.  `parsePaginationType` is total, so configuration construction
never fails on this flag. -/
theorem claim_C9 (s : String) (h1 : toLowerStr s ≠ "offset")
    (h2 : toLowerStr s ≠ "cursor") : parsePaginationType s = .Page := by
  unfold parsePaginationType
  rw [if_neg h1, if_neg h2]

/-- C9 witness: the misspelling "paage" silently selects `Page`. -/
theorem claim_C9_w : parsePaginationType ("paage") = .Page :=
  claim_C9 "paage" (by decide) (by decide)

/-- C10 (confirmed): pageSize is never validated.  With pageSize 0 and
0 < totalCount < 2^31 the float division yields +infinity and the
saturating `as i32` cast turns `total_pages` into `i32::MAX = 2147483647`.
With a negative pageSize (and non-negative extracted totalCount) the
computed `total_pages` is non-positive, so the loop body never runs and
the run still reports completion after only the probe fetch. -/
theorem claim_C10 :
    (∀ tc : ℤ, 0 < tc → tc < 2 ^ 31 → totalPages tc 0 = 2147483647) ∧
      ∀ (fetch : ℤ → Except String Json) (cfg : RunConfig) (r : Json) (tc : ℤ),
        fetch 1 = .ok r → get_total_count cfg.totalCountPath r = .ok tc →
        0 ≤ tc → -2 ^ 31 ≤ cfg.pageSize → cfg.pageSize < 0 →
        totalPages tc cfg.pageSize ≤ 0 ∧ Scraper.run fetch cfg = ⟨[1], [], true⟩ := by
  constructor
  · intro tc h1 h2
    rw [totalPages_satur tc h1 h2]
    norm_num
  · intro fetch cfg r tc h1 h2 htc0 hps1 hps2
    have hrange := gtc_ok_range cfg.totalCountPath r tc h2
    have htp : totalPages tc cfg.pageSize ≤ 0 :=
      totalPages_nonpos tc cfg.pageSize htc0 hrange.2 hps1 hps2
    refine ⟨htp, ?_⟩
    rw [run_probe_ok fetch cfg r tc h1 h2, pageRange_nonpos _ htp]
    rfl

/-- C10 witness: pageSize 0 with totalCount 5 saturates to `i32::MAX`;
pageSize -3 with totalCount 7 plans no pages and completes after the
probe. -/
theorem claim_C10_w :
    totalPages 5 0 = 2147483647 ∧
      totalPages 7 cfgNeg.pageSize ≤ 0 ∧
      Scraper.run fetchT7 cfgNeg = ⟨[1], [], true⟩ := by
  refine ⟨claim_C10.1 5 (by norm_num) (by norm_num), ?_, ?_⟩
  · exact (claim_C10.2 fetchT7 cfgNeg docT7 7 rfl rfl (by norm_num) (by decide) (by decide)).1
  · exact (claim_C10.2 fetchT7 cfgNeg docT7 7 rfl rfl (by norm_num) (by decide) (by decide)).2

/-- C1 (corrected), counterexample: a planned 2-page run whose responses
lack the data path.  The extraction failure on page 1 is propagated by the
`?` in the loop body: the run aborts (`ok = false`), page 2 is never
fetched (the fetch trace is probe + page 1 only) and no output is
produced — contradicting the claim that pages k+1..N are still fetched. -/
theorem claim_C1_cex :
    totalPages 2 1 = 2 ∧ Scraper.run fetchND cfgStd = ⟨[1, 1], [], false⟩ := by
  refine ⟨totalPages_two_one, ?_⟩
  rw [run_probe_ok fetchND cfgStd docND 2 rfl rfl,
    show cfgStd.pageSize = (1 : ℤ) from rfl, totalPages_two_one,
    show pageRange 2 = [1, 2] from rfl,
    runLoop_abort fetchND cfgStd.dataPath 1 [2] docND rfl rfl]

/-- C1 (amended): only per-page FETCH failures are isolated.  If page k's
fetch fails but every other page fetches and extracts, the run completes,
every page (k included) is attempted in order, every page other than k
produces its output, and page k produces none.  (A data-path extraction
failure, by contrast, aborts the run — see the counterexample.) -/
theorem claim_C1 (fetch : ℤ → Except String Json) (cfg : RunConfig) (k tc : ℤ)
    (e : String) (r1 : Json) (hp : fetch 1 = .ok r1)
    (hc : get_total_count cfg.totalCountPath r1 = .ok tc)
    (hk : fetch k = .error e)
    (hother : ∀ p, p ≠ k → ∃ resp d, fetch p = .ok resp ∧
      extract_data cfg.dataPath resp = some d) :
    (Scraper.run fetch cfg).ok = true ∧
    (Scraper.run fetch cfg).fetches = 1 :: pageRange (totalPages tc cfg.pageSize) ∧
    (∀ p ∈ pageRange (totalPages tc cfg.pageSize), p ≠ k →
      ∃ d, (p, d) ∈ (Scraper.run fetch cfg).outputs) ∧
    ∀ d, (k, d) ∉ (Scraper.run fetch cfg).outputs := by
  have hloop := runLoop_skip fetch cfg.dataPath k e hk
    (pageRange (totalPages tc cfg.pageSize)) (fun p _ hpk => hother p hpk)
  rw [run_probe_ok fetch cfg r1 tc hp hc]
  exact ⟨hloop.2.1, congrArg (List.cons 1) hloop.1, hloop.2.2.1, hloop.2.2.2⟩

/-- C1 witness: Scenario E shape — of 3 planned pages, page 2's fetch
fails; pages 1 and 3 still produce outputs and the run completes. -/
theorem claim_C1_w :
    (Scraper.run fetchSkip2 cfgStd).ok = true ∧
    (Scraper.run fetchSkip2 cfgStd).fetches =
      1 :: pageRange (totalPages 3 cfgStd.pageSize) ∧
    (∀ p ∈ pageRange (totalPages 3 cfgStd.pageSize), p ≠ 2 →
      ∃ d, (p, d) ∈ (Scraper.run fetchSkip2 cfgStd).outputs) ∧
    ∀ d, ((2 : ℤ), d) ∉ (Scraper.run fetchSkip2 cfgStd).outputs :=
  claim_C1 fetchSkip2 cfgStd 2 3 "connection reset" docT3 rfl rfl rfl
    (fun p hp => ⟨docT3, Json.arr [], by simp [fetchSkip2, hp], rfl⟩)

/-- C3 (corrected), counterexample: a 1-page run.  The probe response is
used only for the total count; the loop fetches page 1 again, so the
fetch trace is [1, 1] — the probe response is NOT reused for page 1's
output, contradicting the claim. -/
theorem claim_C3_cex :
    totalPages 1 1 = 1 ∧
      Scraper.run fetchT1 cfgStd = ⟨[1, 1], [(1, Json.arr [])], true⟩ := by
  refine ⟨totalPages_one_one, ?_⟩
  rw [run_probe_ok fetchT1 cfgStd docT1 1 rfl rfl,
    show cfgStd.pageSize = (1 : ℤ) from rfl, totalPages_one_one]
  rfl

/-- C3 (amended): whenever at least one page is planned, page 1 IS
fetched a second time inside the iteration loop: the first two entries of
the fetch trace are both page 1 (probe, then loop iteration 1). -/
theorem claim_C3 (fetch : ℤ → Except String Json) (cfg : RunConfig) (r : Json)
    (tc : ℤ) (h1 : fetch 1 = .ok r)
    (h2 : get_total_count cfg.totalCountPath r = .ok tc)
    (htp : 1 ≤ totalPages tc cfg.pageSize) :
    (Scraper.run fetch cfg).fetches.take 2 = [1, 1] := by
  obtain ⟨rest, hr⟩ := pageRange_pos_head _ htp
  rw [run_probe_ok fetch cfg r tc h1 h2]
  dsimp only
  rw [hr]
  obtain ⟨fs, hfs⟩ := runLoop_head_fetch fetch cfg.dataPath 1 rest
  rw [hfs]
  rfl

/-- C3 witness: the concrete 1-page run issues the probe fetch of page 1
and then fetches page 1 again in the loop. -/
theorem claim_C3_w : (Scraper.run fetchT1 cfgStd).fetches.take 2 = [1, 1] :=
  claim_C3 fetchT1 cfgStd docT1 1 rfl rfl
    (by rw [show cfgStd.pageSize = (1 : ℤ) from rfl, totalPages_one_one])

/-- C4 (corrected), counterexample: a configured path "a/b" containing a
slash.  There is no top-level field named "a/b" (single-segment lookup
fails), yet extraction succeeds by traversing into the nested object —
the pointer resolution is full RFC 6901 traversal, not flat-field-only. -/
theorem claim_C4_cex :
    extract_data ("a/b") docNested = some (Json.num (JNum.int 5)) ∧
      jstep docNested ("a/b").data = none :=
  ⟨rfl, rfl⟩

/-- C4 (amended): the configured path is resolved as the RFC 6901 JSON
pointer "/" ++ path.  Only for a path containing neither a slash nor a
tilde does resolution degenerate to a single step on the whole path (a
top-level field lookup for objects); a slash-separated path performs
nested traversal. -/
theorem claim_C4 (path : String) (v : Json) (hs : '/' ∉ path.data)
    (ht : '~' ∉ path.data) :
    Json.pointer ("/" ++ path) v = jstep v path.data :=
  pointer_single path v hs ht

/-- C4 witness: the slash-free path "data" acts as a single top-level
field name. -/
theorem claim_C4_w :
    Json.pointer ("/" ++ "data") docT3 = jstep docT3 ("data").data :=
  claim_C4 "data" docT3 (by decide) (by decide)

/-- C5 (corrected), counterexample: with the value 2^63 at the total-count
path — integer-typed JSON, representable by serde_json — `as_i64` fails
and `get_total_count` errors, although the claim allows an error only for
absent or non-integer-typed values; and with value 2^32 + 5 the function
returns 5, not the 64-bit value at the path (the `as i32` cast wraps). -/
theorem claim_C5_cex :
    get_total_count ("totalCount") docBig =
        .error "Could not find total count in response" ∧
      get_total_count ("totalCount") docWrap = .ok 5 ∧ (5 : ℤ) ≠ 2 ^ 32 + 5 :=
  ⟨rfl, rfl, by norm_num⟩

/-- C5 (amended): `get_total_count` succeeds exactly when the configured
path resolves to an integer-typed value representable as a signed 64-bit
integer, in which case it returns that value wrapped to 32 bits
(`v as i32`); in every other case it returns the `FieldNotFound`-style
error value (never a panic — the embedding is a total function). -/
theorem claim_C5 (path : String) (resp : Json) :
    ((∃ v, get_total_count path resp = .ok v) ↔
      ∃ m : ℤ, Json.pointer ("/" ++ path) resp = some (Json.num (JNum.int m)) ∧
        -2 ^ 63 ≤ m ∧ m < 2 ^ 63) ∧
    (∀ m : ℤ, Json.pointer ("/" ++ path) resp = some (Json.num (JNum.int m)) →
      -2 ^ 63 ≤ m → m < 2 ^ 63 → get_total_count path resp = .ok (wrap32 m)) ∧
    ((∀ v, get_total_count path resp ≠ .ok v) →
      get_total_count path resp = .error "Could not find total count in response") := by
  refine ⟨⟨?_, ?_⟩, ?_, ?_⟩
  · rintro ⟨v, hv⟩
    rcases ho : (Json.pointer ("/" ++ path) resp).bind as_i64 with _ | m
    · rw [gtc_error_char path resp ho] at hv
      exact absurd hv (by simp)
    · obtain ⟨hp2, hr1, hr2⟩ := (bind_as_i64_some _ m).mp ho
      exact ⟨m, hp2, hr1, hr2⟩
  · rintro ⟨m, hm, hr1, hr2⟩
    exact ⟨wrap32 m, gtc_ok_char path resp m ((bind_as_i64_some _ m).mpr ⟨hm, hr1, hr2⟩)⟩
  · intro m hm hr1 hr2
    exact gtc_ok_char path resp m ((bind_as_i64_some _ m).mpr ⟨hm, hr1, hr2⟩)
  · intro hno
    rcases ho : (Json.pointer ("/" ++ path) resp).bind as_i64 with _ | m
    · exact gtc_error_char path resp ho
    · exact absurd (gtc_ok_char path resp m ho) (hno (wrap32 m))

/-- C5 witness: a document with totalCount 5 succeeds and returns
`wrap32 5`. -/
theorem claim_C5_w : get_total_count ("totalCount") docTC5 = .ok (wrap32 5) :=
  (claim_C5 "totalCount" docTC5).2.1 5 rfl (by norm_num) (by norm_num)

/-- C6 (corrected), counterexample: pageIndex 3 with pageSize 2^30.  The
exact offset (3-1)*2^30 = 2^31 overflows i32; the wrapping multiplication
produces the negative parameter -2^31, contradicting both the exact
formula and the no-negative-parameters claim. -/
theorem claim_C6_cex :
    fetch_page_params .Offset 1073741824 3 =
        [("offset", -2147483648), ("limit", 1073741824)] ∧
      ((3 : ℤ) - 1) * 1073741824 = 2147483648 ∧ (-2147483648 : ℤ) < 0 :=
  ⟨by decide, by norm_num, by norm_num⟩

/-- C6 (amended): `fetch_page_params` is a pure function of
(variant, pageIndex, pageSize); for i32 inputs with pageIndex ≥ 1,
pageSize > 0 AND no overflow — (pageIndex-1)*pageSize < 2^31 — it yields
exactly offset=(pageIndex-1)*pageSize, limit=pageSize for Offset,
cursor=pageIndex, limit=pageSize for Cursor, page=pageIndex,
pageSize=pageSize for Page, and the computed offset is non-negative. -/
theorem claim_C6 (page ps : ℤ) (h1 : 1 ≤ page) (h2 : page < 2 ^ 31) (h3 : 0 < ps)
    (h4 : ps < 2 ^ 31) (h5 : (page - 1) * ps < 2 ^ 31) :
    fetch_page_params .Offset ps page = [("offset", (page - 1) * ps), ("limit", ps)] ∧
    fetch_page_params .Cursor ps page = [("cursor", page), ("limit", ps)] ∧
    fetch_page_params .Page ps page = [("page", page), ("pageSize", ps)] ∧
    0 ≤ (page - 1) * ps := by
  have hnn : 0 ≤ (page - 1) * ps := mul_nonneg (by omega) (by omega)
  have e1 : wrap32 (page - 1) = page - 1 := wrap32_eq_self (by omega) (by omega)
  have e2 : wrap32 ((page - 1) * ps) = (page - 1) * ps :=
    wrap32_eq_self (by linarith) h5
  refine ⟨?_, rfl, rfl, hnn⟩
  unfold fetch_page_params
  rw [e1, e2]

/-- C6 witness: Scenario C — variant offset, pageIndex 3, pageSize 100
gives offset 200 and limit 100. -/
theorem claim_C6_w :
    fetch_page_params .Offset 100 3 =
        [("offset", ((3 : ℤ) - 1) * 100), ("limit", 100)] ∧
      fetch_page_params .Cursor 100 3 = [("cursor", 3), ("limit", 100)] ∧
      fetch_page_params .Page 100 3 = [("page", 3), ("pageSize", 100)] ∧
      0 ≤ ((3 : ℤ) - 1) * 100 :=
  claim_C6 3 100 (by norm_num) (by norm_num) (by norm_num) (by norm_num) (by norm_num)
